import Mathlib

/-!
Shallow embedding of the finality gadget of `packages/consensus/finality/finality_gadget.go`
(the `SimpleFinalityGadget`), together with proofs about its behaviour.

Embedding conventions:
* `MessageID`, `TransactionID`, `OutputID`, `BranchID` and markers are all modelled as `Nat`.
  In the source a `BranchID` is derived 1:1 from the `TransactionID` that created it
  (`ledgerstate.NewBranchID(txID)` / `branchID.TransactionID()`), so branch IDs and their
  defining transaction IDs are identified here.
* Go `float64` approval weights are modelled as `ℚ`; the threshold constants 0.2 / 0.3 / 0.5
  become the exact rationals 1/5, 3/10, 1/2.
* The read-only view the gadget has of the tangle (marker resolution, strong parents,
  payload lookup, attachments, transaction outputs, output consumers, conflict membership,
  branch approval weight) is a record of functions, `TangleView`.  The mutable metadata
  (message / transaction / output `gradeOfFinality`) is the record `Stores`.
  A `.Consume` of a missing object in Go skips its callback; missing objects are `none` here.
* The hive.go `walker.Walker` used by `HandleBranch` and by `Tangle.Utils.WalkMessageAndMetadata`
  (revisit disabled in both call sites) is modelled as a FIFO queue plus the set of elements
  ever pushed; a push of an already-pushed element is a no-op.  The Go walker loop terminates
  because the runtime graph is finite; here the loop is parameterised by an explicit step
  budget `fuel`, and every property is proved for every value of `fuel`.
* `HandleMarker`/`HandleBranch` return `(state, events, err)`; in the source `err` is declared
  and returned but never assigned, which the embedding mirrors with an `Option String` that is
  always `none`.
-/

/-- The `gof.GradeOfFinality` enum: ordered levels None=0, Low=1, Medium=2, High=3. -/
inductive GoF where
  | None
  | Low
  | Medium
  | High
deriving DecidableEq

/-- Integer rank of a grade of finality (the Go enum's underlying value). -/
def GoF.toNat : GoF → Nat
  | .None => 0
  | .Low => 1
  | .Medium => 2
  | .High => 3

theorem GoF.toNat_injective : Function.Injective GoF.toNat := by
  intro a b h
  cases a <;> cases b <;> simp [GoF.toNat] at h <;> rfl

instance : LinearOrder GoF := LinearOrder.lift' GoF.toNat GoF.toNat_injective

/-- Confirmation events fired by the gadget (`tangle.ConfirmationEvents`). -/
inductive Event where
  | messageConfirmed (id : Nat)
  | transactionConfirmed (id : Nat)
  | branchConfirmed (id : Nat)
deriving DecidableEq

/-- Mutable part of `tangle.MessageMetadata` used by the gadget. -/
structure MessageMeta where
  gradeOfFinality : GoF
  isPastMarker : Bool
deriving DecidableEq

/-- Mutable part of `ledgerstate.TransactionMetadata` used by the gadget. -/
structure TransactionMeta where
  gradeOfFinality : GoF
  branchID : Nat
deriving DecidableEq

/-- Mutable part of `ledgerstate.OutputMetadata` used by the gadget. -/
structure OutputMeta where
  gradeOfFinality : GoF
deriving DecidableEq

/-- `tangle.EmptyMessageID`: the sentinel returned by marker resolution when the marker has
no registered message. -/
def emptyMessageID : Nat := 0

/-- Read-only view of the tangle / ledger state consumed by the gadget:
* `markerMessage`  = `Booker.MarkersManager.MessageID` (unresolved markers yield
  `emptyMessageID`);
* `strongParents`  = the strong-parent list of the message object
  (`message.ForEachParentByType(StrongParentType, ...)`); `none` when the message object
  itself is absent from storage;
* `payload`        = `Utils.ComputeIfTransaction`: the transaction carried by a message,
  `none` when the payload is not a transaction;
* `attachments`    = `Storage.Attachments`: messages attaching a transaction;
* `txOutputs`      = `transaction.Essence().Outputs()`; `none` when the transaction object is
  absent from storage;
* `consumers`      = `LedgerState.Consumers` of an output;
* `conflicting`    = `LedgerState.TransactionConflicting`;
* `branchWeight`   = `ApprovalWeightManager.WeightOfBranch`. -/
structure TangleView where
  markerMessage : Nat → Nat
  strongParents : Nat → Option (List Nat)
  payload : Nat → Option Nat
  attachments : Nat → List Nat
  txOutputs : Nat → Option (List Nat)
  consumers : Nat → List Nat
  conflicting : Nat → Bool
  branchWeight : Nat → ℚ

/-- The mutable metadata stores (message / transaction / output metadata by ID);
`none` means the metadata object does not exist, so `.Consume` skips its callback. -/
structure Stores where
  messageMetadata : Nat → Option MessageMeta
  transactionMetadata : Nat → Option TransactionMeta
  outputMetadata : Nat → Option OutputMeta

/-- Full state the gadget operates on. -/
structure GState where
  tangle : TangleView
  stores : Stores

/-- Configurable options of a `SimpleFinalityGadget` (`Options` in the source). -/
structure Options where
  BranchTransFunc : Nat → ℚ → GoF
  MessageTransFunc : ℚ → GoF
  BranchGoFReachedLevel : GoF
  MessageGoFReachedLevel : GoF

/-- `DefaultBranchGoFTranslation`: translate approval weight to a branch grade of finality.
Mirrors the Go switch with `lowLowerBound = 0.2`, `mediumLowerBound = 0.3`,
`highLowerBound = 0.5`. -/
def DefaultBranchGoFTranslation (_branchID : Nat) (aw : ℚ) : GoF :=
  if 1/5 ≤ aw ∧ aw < 3/10 then GoF.Low
  else if 3/10 ≤ aw ∧ aw < 1/2 then GoF.Medium
  else if 1/2 ≤ aw then GoF.High
  else GoF.None

/-- `DefaultMessageGoFTranslation`: translate approval weight to a message grade of finality.
Mirrors the Go switch with the same bounds as the branch translation. -/
def DefaultMessageGoFTranslation (aw : ℚ) : GoF :=
  if 1/5 ≤ aw ∧ aw < 3/10 then GoF.Low
  else if 3/10 ≤ aw ∧ aw < 1/2 then GoF.Medium
  else if 1/2 ≤ aw then GoF.High
  else GoF.None

/-- `ErrUnsupportedBranchType`: the named error value declared at the top of
`finality_gadget.go` (`errors.New("unsupported branch type")`). -/
def ErrUnsupportedBranchType : String := "unsupported branch type"

/-- The default option set (`defaultOpts` in the source): default translations and both
reached-levels `gof.High`. -/
def defaultOpts : Options :=
  { BranchTransFunc := DefaultBranchGoFTranslation
    MessageTransFunc := DefaultMessageGoFTranslation
    BranchGoFReachedLevel := GoF.High
    MessageGoFReachedLevel := GoF.High }

/-- Modelled from the spec: the metadata mutator `SetGradeOfFinality` of message and
transaction metadata lives outside the provided sources (hive.go-backed metadata objects).
Per spec §5 ("every mutation (`SetGradeOfFinality`) must be an atomic compare-and-raise"),
§4.2 step 3 and §9 (`tryRaise(candidate) -> bool`), it raises the stored level when the
candidate is strictly greater and reports whether it modified the value. -/
def SetGradeOfFinality (current candidate : GoF) : GoF × Bool :=
  if current < candidate then (candidate, true) else (current, false)

/-- Modelled from the spec: the output-metadata write.  Spec §4.3/§4.4.d describe the output
update as "set every output created by this transaction to the same GoF (unconditionally
overwrite, not a monotonic raise check at this point)"; the output metadata mutator is
outside the provided sources, so it is modelled as an unconditional overwrite. -/
def setOutputGoF (_om : OutputMeta) (candidate : GoF) : OutputMeta :=
  { gradeOfFinality := candidate }

/-- Point update of a total map. -/
def updFn {α : Type} (f : Nat → α) (k : Nat) (v : α) : Nat → α :=
  fun i => if i = k then v else f i

/-- Write the message metadata stored under `k`. -/
def setMsgMeta (s : GState) (k : Nat) (v : MessageMeta) : GState :=
  { s with stores := { s.stores with messageMetadata := updFn s.stores.messageMetadata k (some v) } }

/-- Write the transaction metadata stored under `k`. -/
def setTxMeta (s : GState) (k : Nat) (v : TransactionMeta) : GState :=
  { s with stores := { s.stores with transactionMetadata := updFn s.stores.transactionMetadata k (some v) } }

/-- Write the output metadata stored under `k`. -/
def setOutMeta (s : GState) (k : Nat) (v : OutputMeta) : GState :=
  { s with stores := { s.stores with outputMetadata := updFn s.stores.outputMetadata k (some v) } }

/-- Modelled from the spec (§4.6): the hive.go `walker.Walker` (not under the provided
sources) with revisiting disabled, as used by both `HandleBranch` (`walker.New()`) and
`Utils.WalkMessageAndMetadata(..., false)`: a FIFO queue plus the set of elements ever
pushed; pushing an already-pushed element is a no-op ("dedup within a single call via a
per-call visited set", §4.4.d). -/
structure Walker where
  queue : List Nat
  pushed : List Nat
deriving DecidableEq

/-- `Walker.Push`: enqueue an element unless it was already pushed during this walk. -/
def Walker.push (w : Walker) (x : Nat) : Walker :=
  if x ∈ w.pushed then w else { queue := w.queue ++ [x], pushed := x :: w.pushed }

/-- The maximum grade of finality over all messages attaching transaction `t`
(`forwardPropagateBranchGoFToTxs`, lines 287-294: fold starting from the zero value
`gof.None`, skipping attachments whose message metadata is missing). -/
def maxAttachmentGoF (s : GState) (t : Nat) : GoF :=
  List.foldl
    (fun acc mid =>
      match s.stores.messageMetadata mid with
      | none => acc
      | some mm => if acc < mm.gradeOfFinality then mm.gradeOfFinality else acc)
    GoF.None (s.tangle.attachments t)

/-- The consumer loop inside `adjustOutputGoF` (lines 325-330): walk the consumers of an
output, adding each not-yet-seen consumer transaction to the `consumerTxs` set and pushing
it on the walker. -/
def collectConsumers (consumerTxs : List Nat) (w : Walker) : List Nat → List Nat × Walker
  | [] => (consumerTxs, w)
  | c :: rest =>
    if c ∈ consumerTxs then collectConsumers consumerTxs w rest
    else collectConsumers (c :: consumerTxs) (w.push c) rest

/-- `adjustOutputGoF` (lines 322-332): overwrite the output's grade of finality and collect
the output's consumer transactions into the walker, deduplicating via the per-call
`consumerTxs` set.  When the output metadata is missing the whole body is skipped. -/
def adjustOutputGoF (s : GState) (o : Nat) (g : GoF) (consumerTxs : List Nat) (w : Walker) :
    GState × List Nat × Walker :=
  match s.stores.outputMetadata o with
  | none => (s, consumerTxs, w)
  | some om =>
    let s1 := setOutMeta s o (setOutputGoF om g)
    let cw := collectConsumers consumerTxs w (s.tangle.consumers o)
    (s1, cw.1, cw.2)

/-- The loop of `forwardPropagateBranchGoFToTxs` over the outputs of the transaction
(lines 311-314), threading the shared `consumerTxs` set and the walker. -/
def adjustOutputs (s : GState) (outs : List Nat) (g : GoF) (consumerTxs : List Nat)
    (w : Walker) : GState × List Nat × Walker :=
  match outs with
  | [] => (s, consumerTxs, w)
  | o :: rest =>
    let r := adjustOutputGoF s o g consumerTxs w
    adjustOutputs r.1 rest g r.2.1 r.2.2

/-- `forwardPropagateBranchGoFToTxs` (lines 280-320): one forward-propagation step for a
dequeued transaction.  Stops (leaving state, events and walker untouched) when the
transaction metadata is missing, when its branch differs from the propagated branch, when
its best attachment grade of finality is below the candidate, or when the compare-and-raise
does not modify the metadata.  Otherwise raises the transaction, adjusts its outputs
(skipped when the transaction object is absent), and fires `TransactionConfirmed` when the
new level reaches `BranchGoFReachedLevel`. -/
def forwardPropagateBranchGoFToTxs (opts : Options) (s : GState) (t branchID : Nat)
    (g : GoF) (w : Walker) : GState × List Event × Walker :=
  match s.stores.transactionMetadata t with
  | none => (s, [], w)
  | some tm =>
    if tm.branchID ≠ branchID then (s, [], w)
    else if maxAttachmentGoF s t < g then (s, [], w)
    else
      let r := SetGradeOfFinality tm.gradeOfFinality g
      if r.2 then
        let s1 := setTxMeta s t { tm with gradeOfFinality := r.1 }
        let sw :=
          match s.tangle.txOutputs t with
          | none => (s1, w)
          | some outs =>
            let a := adjustOutputs s1 outs r.1 [] w
            (a.1, a.2.2)
        let evs := if opts.BranchGoFReachedLevel ≤ r.1 then [Event.transactionConfirmed t] else []
        (sw.1, evs, sw.2)
      else (s, [], w)

/-- The generic walker-driven loop shared by `HandleBranch` (its explicit `for` loop over
the walker) and `Utils.WalkMessageAndMetadata`: pop the front element, run the step, repeat.
`fuel` bounds the number of iterations; the Go loop terminates because the runtime graph is
finite and pushes are deduplicated. -/
def walkLoop (step : GState → Nat → Walker → GState × List Event × Walker) :
    Nat → GState → Walker → GState × List Event
  | 0, s, _ => (s, [])
  | Nat.succ fuel, s, w =>
    match w.queue with
    | [] => (s, [])
    | t :: rest =>
      let r := step s t { w with queue := rest }
      let r2 := walkLoop step fuel r.1 r.2.2
      (r2.1, r.2.1 ++ r2.2)

/-- `HandleBranch` (lines 263-278): translate the weight, forward-propagate through the
branch's transactions starting from the branch's defining transaction
(`branchID.TransactionID()` = the same identifier), then fire `BranchConfirmed` whenever the
candidate reaches `BranchGoFReachedLevel`.  The declared `err` result is never assigned. -/
def HandleBranch (opts : Options) (s : GState) (branchID : Nat) (aw : ℚ) (fuel : Nat) :
    GState × List Event × Option String :=
  let g := opts.BranchTransFunc branchID aw
  let w0 := Walker.push { queue := [], pushed := [] } branchID
  let r := walkLoop (fun s' t w => forwardPropagateBranchGoFToTxs opts s' t branchID g w) fuel s w0
  let evs := if opts.BranchGoFReachedLevel ≤ g then r.2 ++ [Event.branchConfirmed branchID] else r.2
  (r.1, evs, none)

/-- The output loop of `setPayloadGoF` (lines 365-370): overwrite the grade of finality of
every output of the transaction whose metadata exists. -/
def setOutputsGoF (s : GState) (outs : List Nat) (g : GoF) : GState :=
  match outs with
  | [] => s
  | o :: rest =>
    let s1 :=
      match s.stores.outputMetadata o with
      | none => s
      | some om => setOutMeta s o (setOutputGoF om g)
    setOutputsGoF s1 rest g

/-- `setPayloadGoF` (lines 350-386): cascade a raised message level to its transaction
payload.  For a conflicting transaction the candidate is recomputed as the branch
translation of the transaction's own branch (`NewBranchID(transactionID)`, identified with
the transaction ID here) at the branch's current approval weight.  If the compare-and-raise
does not modify the transaction, nothing else happens; otherwise the outputs are overwritten
and `TransactionConfirmed` fires when the level reaches `BranchGoFReachedLevel`. -/
def setPayloadGoF (opts : Options) (s : GState) (mid : Nat) (g : GoF) : GState × List Event :=
  match s.tangle.payload mid with
  | none => (s, [])
  | some txID =>
    match s.stores.transactionMetadata txID with
    | none => (s, [])
    | some tm =>
      let g2 := if s.tangle.conflicting txID then
          opts.BranchTransFunc txID (s.tangle.branchWeight txID)
        else g
      let r := SetGradeOfFinality tm.gradeOfFinality g2
      if r.2 then
        let s1 := setTxMeta s txID { tm with gradeOfFinality := r.1 }
        let s2 :=
          match s.tangle.txOutputs txID with
          | none => s1
          | some outs => setOutputsGoF s1 outs g2
        let evs := if opts.BranchGoFReachedLevel ≤ g2 then [Event.transactionConfirmed txID] else []
        (s2, evs)
      else (s, [])

/-- `setMessageGoF` (lines 334-348): compare-and-raise the message's grade of finality;
when modified, cascade to the payload and fire `MessageConfirmed` when the level reaches
`MessageGoFReachedLevel`.  Returns whether the metadata was modified. -/
def setMessageGoF (opts : Options) (s : GState) (mid : Nat) (mm : MessageMeta) (g : GoF) :
    GState × List Event × Bool :=
  let r := SetGradeOfFinality mm.gradeOfFinality g
  if r.2 then
    let s1 := setMsgMeta s mid { mm with gradeOfFinality := r.1 }
    let pe := setPayloadGoF opts s1 mid g
    let evs := if opts.MessageGoFReachedLevel ≤ g then pe.2 ++ [Event.messageConfirmed mid] else pe.2
    (pe.1, evs, true)
  else (s, [], false)

/-- The strong-parent push loop (lines 252-255): `message.ForEachParentByType` pushing each
strong parent on the walker. -/
def pushAll (w : Walker) : List Nat → Walker
  | [] => w
  | p :: rest => pushAll (w.push p) rest

/-- The `propagateGoF` closure of `HandleMarker` (lines 233-256), as invoked by
`WalkMessageAndMetadata` on a dequeued message: skipped entirely when the message object or
its metadata is missing; stops at a past marker already at or above the candidate; otherwise
attempts the raise via `setMessageGoF` and, when modified, pushes the strong parents. -/
def propagateGoF (opts : Options) (g : GoF) (s : GState) (mid : Nat) (w : Walker) :
    GState × List Event × Walker :=
  match s.tangle.strongParents mid, s.stores.messageMetadata mid with
  | some parents, some mm =>
    if mm.isPastMarker = true ∧ g ≤ mm.gradeOfFinality then (s, [], w)
    else
      let r := setMessageGoF opts s mid mm g
      if r.2.2 then (r.1, r.2.1, pushAll w parents)
      else (s, [], w)
  | _, _ => (s, [], w)

/-- `HandleMarker` (lines 213-261): translate the weight (no-op on `gof.None`), resolve the
marker, check the raise guard against the resolved message's stored level, then walk the
past cone over strong parents.  The declared `err` result is never assigned. -/
def HandleMarker (opts : Options) (s : GState) (marker : Nat) (aw : ℚ) (fuel : Nat) :
    GState × List Event × Option String :=
  let g := opts.MessageTransFunc aw
  if g = GoF.None then (s, [], none)
  else
    let mid := s.tangle.markerMessage marker
    let gofIncreased :=
      match s.stores.messageMetadata mid with
      | none => false
      | some mm => decide (mm.gradeOfFinality < g)
    if gofIncreased then
      let w0 := Walker.push { queue := [], pushed := [] } mid
      let r := walkLoop (fun s' m w => propagateGoF opts g s' m w) fuel s w0
      (r.1, r.2, none)
    else (s, [], none)

/-- `IsTransactionConfirmed` (lines 193-201): reads the transaction metadata and compares
its grade of finality against `MessageGoFReachedLevel` (note: the message level, exactly as
in the source at line 196). -/
def IsTransactionConfirmed (opts : Options) (s : GState) (t : Nat) : Bool :=
  match s.stores.transactionMetadata t with
  | none => false
  | some tm => decide (opts.MessageGoFReachedLevel ≤ tm.gradeOfFinality)

/-- A single external invocation of the gadget. -/
inductive Call where
  | marker (marker : Nat) (aw : ℚ) (fuel : Nat)
  | branch (branchID : Nat) (aw : ℚ) (fuel : Nat)

/-- Run one call, keeping only the state. -/
def runCall (opts : Options) (s : GState) : Call → GState
  | .marker m aw fuel => (HandleMarker opts s m aw fuel).1
  | .branch b aw fuel => (HandleBranch opts s b aw fuel).1

/-- Run a sequence of `HandleMarker`/`HandleBranch` calls. -/
def runCalls (opts : Options) : List Call → GState → GState
  | [], s => s
  | c :: cs, s => runCalls opts cs (runCall opts s c)

/-- A tangle view with no messages, transactions, outputs or resolvable markers. -/
def tangle0 : TangleView :=
  { markerMessage := fun _ => emptyMessageID
    strongParents := fun _ => none
    payload := fun _ => none
    attachments := fun _ => []
    txOutputs := fun _ => none
    consumers := fun _ => []
    conflicting := fun _ => false
    branchWeight := fun _ => 0 }

/-- Empty metadata stores. -/
def stores0 : Stores :=
  { messageMetadata := fun _ => none
    transactionMetadata := fun _ => none
    outputMetadata := fun _ => none }

/-- The empty ledger state. -/
def sEmpty : GState := { tangle := tangle0, stores := stores0 }

/-- Options with distinct confirmed levels for the message and branch sides:
branch level `Low`, message level `High`. -/
def optsSplit : Options :=
  { defaultOpts with BranchGoFReachedLevel := GoF.Low, MessageGoFReachedLevel := GoF.High }

/-- A state holding one transaction (ID 7, master branch 0) at grade of finality Medium. -/
def sMedTx : GState :=
  { tangle := tangle0
    stores := { stores0 with
      transactionMetadata := updFn stores0.transactionMetadata 7
        (some { gradeOfFinality := GoF.Medium, branchID := 0 }) } }

/-- A state holding the conflicting branch 5's defining transaction (ID 5) already at
grade of finality High, with no attachments. -/
def sHighTx : GState :=
  { tangle := tangle0
    stores := { stores0 with
      transactionMetadata := updFn stores0.transactionMetadata 5
        (some { gradeOfFinality := GoF.High, branchID := 5 }) } }

/-- A state where message 1 carries conflicting transaction 2 (branch weight 3/5) whose
metadata sits at grade of finality None. -/
def sConfl : GState :=
  { tangle := { tangle0 with
      payload := updFn tangle0.payload 1 (some 2)
      conflicting := updFn tangle0.conflicting 2 true
      branchWeight := updFn tangle0.branchWeight 2 (3/5) }
    stores := { stores0 with
      transactionMetadata := updFn stores0.transactionMetadata 2
        (some { gradeOfFinality := GoF.None, branchID := 2 }) } }

/-- A state holding transaction 4 of branch 9 with no attachments, and transaction 2 that
belongs to branch 7. -/
def sTwoTx : GState :=
  { tangle := tangle0
    stores := { stores0 with
      transactionMetadata := fun i =>
        if i = 4 then some { gradeOfFinality := GoF.None, branchID := 9 }
        else if i = 2 then some { gradeOfFinality := GoF.None, branchID := 7 }
        else none } }

/-- A state holding message 6 (a resolvable marker 6) at grade of finality High. -/
def sHighMsg : GState :=
  { tangle := { tangle0 with markerMessage := updFn tangle0.markerMessage 6 6 }
    stores := { stores0 with
      messageMetadata := updFn stores0.messageMetadata 6
        (some { gradeOfFinality := GoF.High, isPastMarker := false }) } }

/-- Outputs created by transaction `t` (empty when the transaction object is absent). -/
def outsOf (s : GState) (t : Nat) : List Nat := (s.tangle.txOutputs t).getD []

/-- Well-formedness of the UTXO graph: distinct transactions create distinct outputs.
In the source this holds by construction, since an `OutputID` embeds the ID of the
transaction that created it. -/
def OutputsDisjoint (s : GState) : Prop :=
  ∀ t1 t2 o, t1 ≠ t2 → o ∈ outsOf s t1 → o ∈ outsOf s t2 → False

/-- Spec invariant I4: an output's grade of finality never exceeds that of the transaction
that created it. -/
def OutputsBelowTx (s : GState) : Prop :=
  ∀ t tm, s.stores.transactionMetadata t = some tm →
    ∀ o ∈ outsOf s t, ∀ om, s.stores.outputMetadata o = some om →
      om.gradeOfFinality ≤ tm.gradeOfFinality

/-- State well-formedness maintained by the gadget. -/
def GadgetInv (s : GState) : Prop := OutputsDisjoint s ∧ OutputsBelowTx s

/-- Lift a relation to optional values, requiring presence to be preserved in both
directions. -/
def OptMono {α : Type} (r : α → α → Prop) : Option α → Option α → Prop
  | none, none => True
  | some a, some b => r a b
  | _, _ => False

/-- Pointwise monotonicity of a metadata map under a grade-of-finality projection. -/
def MapMono {α : Type} (gofOf : α → GoF) (a b : Nat → Option α) : Prop :=
  ∀ i, OptMono (fun x y => gofOf x ≤ gofOf y) (a i) (b i)

/-- Spec invariant I1 between two states: no stored grade of finality decreased. -/
def StoresMono (a b : Stores) : Prop :=
  MapMono MessageMeta.gradeOfFinality a.messageMetadata b.messageMetadata ∧
  MapMono TransactionMeta.gradeOfFinality a.transactionMetadata b.transactionMetadata ∧
  MapMono OutputMeta.gradeOfFinality a.outputMetadata b.outputMetadata

theorem mapMono_refl {α : Type} (gofOf : α → GoF) (a : Nat → Option α) : MapMono gofOf a a := by
  intro i
  cases a i <;> simp [OptMono]

theorem mapMono_trans {α : Type} {gofOf : α → GoF} {a b c : Nat → Option α}
    (h1 : MapMono gofOf a b) (h2 : MapMono gofOf b c) : MapMono gofOf a c := by
  intro i
  have j1 := h1 i
  have j2 := h2 i
  cases ha : a i <;> cases hb : b i <;> cases hc : c i <;> simp_all [OptMono]
  exact le_trans j1 j2

theorem storesMono_refl (a : Stores) : StoresMono a a :=
  ⟨mapMono_refl _ _, mapMono_refl _ _, mapMono_refl _ _⟩

theorem storesMono_trans {a b c : Stores} (h1 : StoresMono a b) (h2 : StoresMono b c) :
    StoresMono a c :=
  ⟨mapMono_trans h1.1 h2.1, mapMono_trans h1.2.1 h2.2.1, mapMono_trans h1.2.2 h2.2.2⟩

@[simp] theorem setMsgMeta_tangle (s : GState) (k : Nat) (v : MessageMeta) :
    (setMsgMeta s k v).tangle = s.tangle := rfl

@[simp] theorem setMsgMeta_txMeta (s : GState) (k : Nat) (v : MessageMeta) :
    (setMsgMeta s k v).stores.transactionMetadata = s.stores.transactionMetadata := rfl

@[simp] theorem setMsgMeta_outMeta (s : GState) (k : Nat) (v : MessageMeta) :
    (setMsgMeta s k v).stores.outputMetadata = s.stores.outputMetadata := rfl

theorem setMsgMeta_msgMeta (s : GState) (k : Nat) (v : MessageMeta) (j : Nat) :
    (setMsgMeta s k v).stores.messageMetadata j
      = if j = k then some v else s.stores.messageMetadata j := rfl

@[simp] theorem setTxMeta_tangle (s : GState) (k : Nat) (v : TransactionMeta) :
    (setTxMeta s k v).tangle = s.tangle := rfl

@[simp] theorem setTxMeta_msgMeta (s : GState) (k : Nat) (v : TransactionMeta) :
    (setTxMeta s k v).stores.messageMetadata = s.stores.messageMetadata := rfl

@[simp] theorem setTxMeta_outMeta (s : GState) (k : Nat) (v : TransactionMeta) :
    (setTxMeta s k v).stores.outputMetadata = s.stores.outputMetadata := rfl

theorem setTxMeta_txMeta (s : GState) (k : Nat) (v : TransactionMeta) (j : Nat) :
    (setTxMeta s k v).stores.transactionMetadata j
      = if j = k then some v else s.stores.transactionMetadata j := rfl

@[simp] theorem setOutMeta_tangle (s : GState) (k : Nat) (v : OutputMeta) :
    (setOutMeta s k v).tangle = s.tangle := rfl

@[simp] theorem setOutMeta_msgMeta (s : GState) (k : Nat) (v : OutputMeta) :
    (setOutMeta s k v).stores.messageMetadata = s.stores.messageMetadata := rfl

@[simp] theorem setOutMeta_txMeta (s : GState) (k : Nat) (v : OutputMeta) :
    (setOutMeta s k v).stores.transactionMetadata = s.stores.transactionMetadata := rfl

theorem setOutMeta_outMeta (s : GState) (k : Nat) (v : OutputMeta) (j : Nat) :
    (setOutMeta s k v).stores.outputMetadata j
      = if j = k then some v else s.stores.outputMetadata j := rfl

theorem setOutputsGoF_tangle (outs : List Nat) (s : GState) (g : GoF) :
    (setOutputsGoF s outs g).tangle = s.tangle := by
  induction outs generalizing s with
  | nil => rfl
  | cons o rest ih =>
    simp only [setOutputsGoF]
    cases h : s.stores.outputMetadata o <;> simp [h, ih]

theorem setOutputsGoF_msgMeta (outs : List Nat) (s : GState) (g : GoF) :
    (setOutputsGoF s outs g).stores.messageMetadata = s.stores.messageMetadata := by
  induction outs generalizing s with
  | nil => rfl
  | cons o rest ih =>
    simp only [setOutputsGoF]
    cases h : s.stores.outputMetadata o <;> simp [h, ih]

theorem setOutputsGoF_txMeta (outs : List Nat) (s : GState) (g : GoF) :
    (setOutputsGoF s outs g).stores.transactionMetadata = s.stores.transactionMetadata := by
  induction outs generalizing s with
  | nil => rfl
  | cons o rest ih =>
    simp only [setOutputsGoF]
    cases h : s.stores.outputMetadata o <;> simp [h, ih]

theorem map_setOutputGoF_idem (x : Option OutputMeta) (g : GoF) :
    Option.map (fun om => setOutputGoF om g) (Option.map (fun om => setOutputGoF om g) x)
      = Option.map (fun om => setOutputGoF om g) x := by
  cases x <;> rfl

theorem setOutputsGoF_outMeta (outs : List Nat) (s : GState) (g : GoF) (j : Nat) :
    (setOutputsGoF s outs g).stores.outputMetadata j
      = if j ∈ outs then Option.map (fun om => setOutputGoF om g) (s.stores.outputMetadata j)
        else s.stores.outputMetadata j := by
  induction outs generalizing s with
  | nil => simp [setOutputsGoF]
  | cons o rest ih =>
    simp only [setOutputsGoF]
    cases h : s.stores.outputMetadata o with
    | none =>
      simp only [h]
      rw [ih]
      by_cases hjo : j = o <;> by_cases hjr : j ∈ rest <;>
        simp [hjo, hjr, List.mem_cons] <;> simp_all
    | some om =>
      simp only [h]
      rw [ih]
      by_cases hjo : j = o <;> by_cases hjr : j ∈ rest <;>
        simp [hjo, hjr, List.mem_cons, setOutMeta_outMeta, h, setOutputGoF]

theorem adjustOutputs_state (outs : List Nat) (s : GState) (g : GoF) (cs : List Nat)
    (w : Walker) : (adjustOutputs s outs g cs w).1 = setOutputsGoF s outs g := by
  induction outs generalizing s cs w with
  | nil => rfl
  | cons o rest ih =>
    simp only [adjustOutputs, setOutputsGoF, adjustOutputGoF]
    cases h : s.stores.outputMetadata o <;> simp [h, ih]

theorem Walker.push_inv {x : Nat} (w : Walker) (y : Nat) (hp : x ∈ w.pushed)
    (hq : x ∉ w.queue) : x ∈ (w.push y).pushed ∧ x ∉ (w.push y).queue := by
  unfold Walker.push
  split
  · exact ⟨hp, hq⟩
  · refine ⟨List.mem_cons_of_mem _ hp, ?_⟩
    intro hmem
    rcases List.mem_append.mp hmem with h | h
    · exact hq h
    · rename_i hy
      simp only [List.mem_singleton] at h
      exact hy (h ▸ hp)

theorem pushAll_inv {x : Nat} (l : List Nat) (w : Walker) (hp : x ∈ w.pushed)
    (hq : x ∉ w.queue) : x ∈ (pushAll w l).pushed ∧ x ∉ (pushAll w l).queue := by
  induction l generalizing w with
  | nil => exact ⟨hp, hq⟩
  | cons p rest ih =>
    have h := Walker.push_inv w p hp hq
    exact ih (w.push p) h.1 h.2

theorem collectConsumers_inv {x : Nat} (l : List Nat) (cs : List Nat) (w : Walker)
    (hp : x ∈ w.pushed) (hq : x ∉ w.queue) :
    x ∈ (collectConsumers cs w l).2.pushed ∧ x ∉ (collectConsumers cs w l).2.queue := by
  induction l generalizing cs w with
  | nil => exact ⟨hp, hq⟩
  | cons c rest ih =>
    simp only [collectConsumers]
    split
    · exact ih _ _ hp hq
    · have h := Walker.push_inv w c hp hq
      exact ih _ _ h.1 h.2

theorem adjustOutputGoF_walker_inv {x : Nat} (s : GState) (o : Nat) (g : GoF)
    (cs : List Nat) (w : Walker) (hp : x ∈ w.pushed) (hq : x ∉ w.queue) :
    x ∈ (adjustOutputGoF s o g cs w).2.2.pushed ∧ x ∉ (adjustOutputGoF s o g cs w).2.2.queue := by
  unfold adjustOutputGoF
  cases h : s.stores.outputMetadata o
  · exact ⟨hp, hq⟩
  · exact collectConsumers_inv _ _ _ hp hq

theorem adjustOutputs_walker_inv {x : Nat} (outs : List Nat) (s : GState) (g : GoF)
    (cs : List Nat) (w : Walker) (hp : x ∈ w.pushed) (hq : x ∉ w.queue) :
    x ∈ (adjustOutputs s outs g cs w).2.2.pushed ∧ x ∉ (adjustOutputs s outs g cs w).2.2.queue := by
  induction outs generalizing s cs w with
  | nil => exact ⟨hp, hq⟩
  | cons o rest ih =>
    simp only [adjustOutputs]
    have h := adjustOutputGoF_walker_inv s o g cs w hp hq
    exact ih _ _ _ h.1 h.2

theorem forwardPropagate_walker_inv {x : Nat} (opts : Options) (s : GState)
    (t branchID : Nat) (g : GoF) (w : Walker) (hp : x ∈ w.pushed) (hq : x ∉ w.queue) :
    x ∈ (forwardPropagateBranchGoFToTxs opts s t branchID g w).2.2.pushed ∧
      x ∉ (forwardPropagateBranchGoFToTxs opts s t branchID g w).2.2.queue := by
  simp only [forwardPropagateBranchGoFToTxs]
  repeat' split
  all_goals first
    | exact ⟨hp, hq⟩
    | exact adjustOutputs_walker_inv _ _ _ _ _ hp hq

theorem propagateGoF_walker_inv {x : Nat} (opts : Options) (g : GoF) (s : GState)
    (mid : Nat) (w : Walker) (hp : x ∈ w.pushed) (hq : x ∉ w.queue) :
    x ∈ (propagateGoF opts g s mid w).2.2.pushed ∧ x ∉ (propagateGoF opts g s mid w).2.2.queue := by
  simp only [propagateGoF]
  repeat' split
  all_goals first
    | exact ⟨hp, hq⟩
    | exact pushAll_inv _ _ hp hq

theorem setPayloadGoF_tangle (opts : Options) (s : GState) (mid : Nat) (g : GoF) :
    (setPayloadGoF opts s mid g).1.tangle = s.tangle := by
  simp only [setPayloadGoF]
  repeat' split
  all_goals simp [setOutputsGoF_tangle]

theorem setPayloadGoF_msgMeta (opts : Options) (s : GState) (mid : Nat) (g : GoF) :
    (setPayloadGoF opts s mid g).1.stores.messageMetadata = s.stores.messageMetadata := by
  simp only [setPayloadGoF]
  repeat' split
  all_goals simp [setOutputsGoF_msgMeta]

theorem setMessageGoF_tangle (opts : Options) (s : GState) (mid : Nat) (mm : MessageMeta)
    (g : GoF) : (setMessageGoF opts s mid mm g).1.tangle = s.tangle := by
  simp only [setMessageGoF]
  repeat' split
  all_goals simp [setPayloadGoF_tangle]

theorem setMessageGoF_msgMeta_ne (opts : Options) (s : GState) (mid : Nat)
    (mm : MessageMeta) (g : GoF) {j : Nat} (hne : j ≠ mid) :
    (setMessageGoF opts s mid mm g).1.stores.messageMetadata j
      = s.stores.messageMetadata j := by
  simp only [setMessageGoF]
  repeat' split
  all_goals simp [setPayloadGoF_msgMeta, setMsgMeta_msgMeta, hne]

theorem propagateGoF_tangle (opts : Options) (g : GoF) (s : GState) (mid : Nat)
    (w : Walker) : (propagateGoF opts g s mid w).1.tangle = s.tangle := by
  simp only [propagateGoF]
  repeat' split
  all_goals simp [setMessageGoF_tangle]

theorem propagateGoF_msgMeta_ne (opts : Options) (g : GoF) (s : GState) (mid : Nat)
    (w : Walker) {j : Nat} (hne : j ≠ mid) :
    (propagateGoF opts g s mid w).1.stores.messageMetadata j = s.stores.messageMetadata j := by
  simp only [propagateGoF]
  repeat' split
  all_goals simp [setMessageGoF_msgMeta_ne _ _ _ _ _ hne]

theorem forwardPropagate_tangle (opts : Options) (s : GState) (t branchID : Nat)
    (g : GoF) (w : Walker) :
    (forwardPropagateBranchGoFToTxs opts s t branchID g w).1.tangle = s.tangle := by
  simp only [forwardPropagateBranchGoFToTxs]
  repeat' split
  all_goals simp [adjustOutputs_state, setOutputsGoF_tangle]

theorem walkLoop_nil (step : GState → Nat → Walker → GState × List Event × Walker)
    (fuel : Nat) (s : GState) (w : Walker) (h : w.queue = []) :
    walkLoop step fuel s w = (s, []) := by
  cases fuel
  · rfl
  · simp [walkLoop, h]

theorem walkLoop_tangle (step : GState → Nat → Walker → GState × List Event × Walker)
    (hstep : ∀ s t w, (step s t w).1.tangle = s.tangle) :
    ∀ (fuel : Nat) (s : GState) (w : Walker), (walkLoop step fuel s w).1.tangle = s.tangle := by
  intro fuel
  induction fuel with
  | zero => intro s w; rfl
  | succ n ih =>
    intro s w
    cases hq : w.queue with
    | nil => simp [walkLoop, hq]
    | cons t rest =>
      simp only [walkLoop, hq]
      rw [ih, hstep]

theorem walkLoop_msgMeta_preserve {x : Nat}
    (step : GState → Nat → Walker → GState × List Event × Walker)
    (hstepW : ∀ s t w, x ∈ w.pushed → x ∉ w.queue →
      x ∈ (step s t w).2.2.pushed ∧ x ∉ (step s t w).2.2.queue)
    (hstepM : ∀ s t w, t ≠ x →
      (step s t w).1.stores.messageMetadata x = s.stores.messageMetadata x) :
    ∀ (fuel : Nat) (s : GState) (w : Walker), x ∈ w.pushed → x ∉ w.queue →
      (walkLoop step fuel s w).1.stores.messageMetadata x = s.stores.messageMetadata x := by
  intro fuel
  induction fuel with
  | zero => intro s w _ _; rfl
  | succ n ih =>
    intro s w hp hq
    cases hqq : w.queue with
    | nil => simp [walkLoop, hqq]
    | cons t rest =>
      rw [hqq] at hq
      simp only [List.mem_cons, not_or] at hq
      obtain ⟨hxt, hx2⟩ := hq
      have htx : t ≠ x := fun h => hxt h.symm
      have hw := hstepW s t { w with queue := rest } hp hx2
      simp only [walkLoop, hqq]
      rw [ih _ _ hw.1 hw.2, hstepM _ _ _ htx]

theorem walkLoop_mono_inv (step : GState → Nat → Walker → GState × List Event × Walker)
    (hstep : ∀ s t w, GadgetInv s →
      StoresMono s.stores (step s t w).1.stores ∧ GadgetInv (step s t w).1) :
    ∀ (fuel : Nat) (s : GState) (w : Walker), GadgetInv s →
      StoresMono s.stores (walkLoop step fuel s w).1.stores ∧
        GadgetInv (walkLoop step fuel s w).1 := by
  intro fuel
  induction fuel with
  | zero => intro s w h; exact ⟨storesMono_refl _, h⟩
  | succ n ih =>
    intro s w hinv
    cases hq : w.queue with
    | nil =>
      simp only [walkLoop, hq]
      exact ⟨storesMono_refl _, hinv⟩
    | cons t rest =>
      simp only [walkLoop, hq]
      have h1 := hstep s t { w with queue := rest } hinv
      have h2 := ih (step s t { w with queue := rest }).1
        (step s t { w with queue := rest }).2.2 h1.2
      exact ⟨storesMono_trans h1.1 h2.1, h2.2⟩

theorem SetGoF_true_iff (a b : GoF) : (SetGradeOfFinality a b).2 = true ↔ a < b := by
  simp only [SetGradeOfFinality]
  split <;> simp_all

theorem SetGoF_fst (a b : GoF) (h : a < b) : (SetGradeOfFinality a b).1 = b := by
  simp [SetGradeOfFinality, h]

theorem outsOf_congr {s s' : GState} (h : s'.tangle = s.tangle) : outsOf s' = outsOf s := by
  funext t
  simp [outsOf, h]

theorem gadgetInv_transport {s s' : GState} (ht : s'.tangle = s.tangle)
    (htx : s'.stores.transactionMetadata = s.stores.transactionMetadata)
    (hout : s'.stores.outputMetadata = s.stores.outputMetadata)
    (h : GadgetInv s) : GadgetInv s' := by
  obtain ⟨hd, hb⟩ := h
  constructor
  · intro t1 t2 o hne h1 h2
    rw [outsOf_congr ht] at h1 h2
    exact hd t1 t2 o hne h1 h2
  · intro t tm htm o ho om hom
    rw [htx] at htm
    rw [outsOf_congr ht] at ho
    rw [hout] at hom
    exact hb t tm htm o ho om hom

theorem raise_tx_mono_inv (s : GState) (t : Nat) (tm : TransactionMeta) (c : GoF)
    (htm : s.stores.transactionMetadata t = some tm)
    (hlt : tm.gradeOfFinality < c) (hinv : GadgetInv s) :
    StoresMono s.stores
        (setOutputsGoF (setTxMeta s t { tm with gradeOfFinality := c }) (outsOf s t) c).stores ∧
      GadgetInv (setOutputsGoF (setTxMeta s t { tm with gradeOfFinality := c }) (outsOf s t) c) := by
  set s2 := setOutputsGoF (setTxMeta s t { tm with gradeOfFinality := c }) (outsOf s t) c with hs2
  have htan2 : s2.tangle = s.tangle := by
    rw [hs2, setOutputsGoF_tangle, setTxMeta_tangle]
  have hmsg2 : s2.stores.messageMetadata = s.stores.messageMetadata := by
    rw [hs2, setOutputsGoF_msgMeta, setTxMeta_msgMeta]
  have htx2 : ∀ j, s2.stores.transactionMetadata j
      = if j = t then some { tm with gradeOfFinality := c }
        else s.stores.transactionMetadata j := by
    intro j
    rw [hs2, setOutputsGoF_txMeta]
    exact setTxMeta_txMeta s t _ j
  have hout2 : ∀ j, s2.stores.outputMetadata j
      = if j ∈ outsOf s t
        then Option.map (fun om => setOutputGoF om c) (s.stores.outputMetadata j)
        else s.stores.outputMetadata j := by
    intro j
    rw [hs2, setOutputsGoF_outMeta, setTxMeta_outMeta]
  refine ⟨⟨?_, ?_, ?_⟩, ?_, ?_⟩
  · intro i
    rw [hmsg2]
    cases s.stores.messageMetadata i <;> simp [OptMono]
  · intro i
    rw [htx2]
    by_cases hit : i = t
    · subst hit
      simp [htm, OptMono, le_of_lt hlt]
    · simp only [hit, if_neg, if_false]
      cases s.stores.transactionMetadata i <;> simp [OptMono]
  · intro i
    rw [hout2]
    by_cases hio : i ∈ outsOf s t
    · simp only [hio, if_pos]
      cases ho : s.stores.outputMetadata i with
      | none => simp [OptMono]
      | some om =>
        simp [OptMono, setOutputGoF]
        exact le_trans (hinv.2 t tm htm i hio om ho) (le_of_lt hlt)
    · simp only [hio, if_neg, if_false]
      cases s.stores.outputMetadata i <;> simp [OptMono]
  · intro t1 t2 o hne h1 h2
    rw [outsOf_congr htan2] at h1 h2
    exact hinv.1 t1 t2 o hne h1 h2
  · intro t' tm' htm' o ho om' hom'
    rw [outsOf_congr htan2] at ho
    rw [htx2] at htm'
    rw [hout2] at hom'
    by_cases ht' : t' = t
    · subst ht'
      simp only [if_pos rfl] at htm'
      have htm'eq : tm' = { tm with gradeOfFinality := c } := by
        injection htm' with h
        exact h.symm
      subst htm'eq
      simp only [ho, if_pos] at hom'
      cases hso : s.stores.outputMetadata o with
      | none => rw [hso] at hom'; simp at hom'
      | some om0 =>
        rw [hso] at hom'
        have h2 : some (setOutputGoF om0 c) = some om' := hom'
        have : om' = setOutputGoF om0 c := by
          injection h2 with h
          exact h.symm
        subst this
        simp [setOutputGoF]
    · simp only [if_neg ht'] at htm'
      by_cases hot : o ∈ outsOf s t
      · exact (hinv.1 t' t o ht' ho hot).elim
      · simp only [hot, if_neg, if_false] at hom'
        exact hinv.2 t' tm' htm' o ho om' hom'

theorem setPayloadGoF_noPayload (opts : Options) (s : GState) (mid : Nat) (g : GoF)
    (h : s.tangle.payload mid = none) : setPayloadGoF opts s mid g = (s, []) := by
  simp [setPayloadGoF, h]

theorem setPayloadGoF_noMeta (opts : Options) (s : GState) (mid : Nat) (g : GoF)
    (txID : Nat) (h : s.tangle.payload mid = some txID)
    (h2 : s.stores.transactionMetadata txID = none) : setPayloadGoF opts s mid g = (s, []) := by
  simp [setPayloadGoF, h, h2]

theorem setPayloadGoF_noRaise (opts : Options) (s : GState) (mid : Nat) (g : GoF)
    (txID : Nat) (tm : TransactionMeta) (g2 : GoF)
    (h : s.tangle.payload mid = some txID)
    (h2 : s.stores.transactionMetadata txID = some tm)
    (hg2 : (if s.tangle.conflicting txID = true
        then opts.BranchTransFunc txID (s.tangle.branchWeight txID) else g) = g2)
    (hge : ¬ tm.gradeOfFinality < g2) : setPayloadGoF opts s mid g = (s, []) := by
  simp only [setPayloadGoF, h, h2, hg2]
  have hc : ¬ (SetGradeOfFinality tm.gradeOfFinality g2).2 = true := by
    rw [SetGoF_true_iff]
    exact hge
  rw [if_neg hc]

theorem setPayloadGoF_raise (opts : Options) (s : GState) (mid : Nat) (g : GoF)
    (txID : Nat) (tm : TransactionMeta) (g2 : GoF)
    (h : s.tangle.payload mid = some txID)
    (h2 : s.stores.transactionMetadata txID = some tm)
    (hg2 : (if s.tangle.conflicting txID = true
        then opts.BranchTransFunc txID (s.tangle.branchWeight txID) else g) = g2)
    (hlt : tm.gradeOfFinality < g2) :
    setPayloadGoF opts s mid g =
      (setOutputsGoF (setTxMeta s txID { tm with gradeOfFinality := g2 }) (outsOf s txID) g2,
       if opts.BranchGoFReachedLevel ≤ g2 then [Event.transactionConfirmed txID] else []) := by
  simp only [setPayloadGoF, h, h2, hg2]
  rw [SetGoF_fst _ _ hlt, if_pos ((SetGoF_true_iff _ _).mpr hlt)]
  cases ho : s.tangle.txOutputs txID <;> simp [ho, outsOf, setOutputsGoF]

theorem setMessageGoF_noRaise (opts : Options) (s : GState) (mid : Nat) (mm : MessageMeta)
    (g : GoF) (hge : ¬ mm.gradeOfFinality < g) :
    setMessageGoF opts s mid mm g = (s, [], false) := by
  simp only [setMessageGoF]
  have hc : ¬ (SetGradeOfFinality mm.gradeOfFinality g).2 = true := by
    rw [SetGoF_true_iff]
    exact hge
  rw [if_neg hc]

theorem setMessageGoF_raise (opts : Options) (s : GState) (mid : Nat) (mm : MessageMeta)
    (g : GoF) (hlt : mm.gradeOfFinality < g) :
    setMessageGoF opts s mid mm g =
      ((setPayloadGoF opts (setMsgMeta s mid { mm with gradeOfFinality := g }) mid g).1,
       (if opts.MessageGoFReachedLevel ≤ g
        then (setPayloadGoF opts (setMsgMeta s mid { mm with gradeOfFinality := g }) mid g).2
          ++ [Event.messageConfirmed mid]
        else (setPayloadGoF opts (setMsgMeta s mid { mm with gradeOfFinality := g }) mid g).2),
       true) := by
  simp only [setMessageGoF]
  rw [SetGoF_fst _ _ hlt, if_pos ((SetGoF_true_iff _ _).mpr hlt)]

theorem forwardPropagate_noMeta (opts : Options) (s : GState) (t branchID : Nat)
    (g : GoF) (w : Walker) (h : s.stores.transactionMetadata t = none) :
    forwardPropagateBranchGoFToTxs opts s t branchID g w = (s, [], w) := by
  simp [forwardPropagateBranchGoFToTxs, h]

theorem forwardPropagate_wrongBranch (opts : Options) (s : GState) (t branchID : Nat)
    (g : GoF) (w : Walker) (tm : TransactionMeta)
    (h : s.stores.transactionMetadata t = some tm) (hbr : tm.branchID ≠ branchID) :
    forwardPropagateBranchGoFToTxs opts s t branchID g w = (s, [], w) := by
  simp [forwardPropagateBranchGoFToTxs, h, hbr]

theorem forwardPropagate_lowAttachment (opts : Options) (s : GState) (t branchID : Nat)
    (g : GoF) (w : Walker) (tm : TransactionMeta)
    (h : s.stores.transactionMetadata t = some tm) (hmax : maxAttachmentGoF s t < g) :
    forwardPropagateBranchGoFToTxs opts s t branchID g w = (s, [], w) := by
  simp only [forwardPropagateBranchGoFToTxs, h]
  by_cases hbr : tm.branchID ≠ branchID
  · rw [if_pos hbr]
  · rw [if_neg hbr, if_pos hmax]

theorem forwardPropagate_noRaise (opts : Options) (s : GState) (t branchID : Nat)
    (g : GoF) (w : Walker) (tm : TransactionMeta)
    (h : s.stores.transactionMetadata t = some tm) (hbr : ¬ tm.branchID ≠ branchID)
    (hmax : ¬ maxAttachmentGoF s t < g) (hge : ¬ tm.gradeOfFinality < g) :
    forwardPropagateBranchGoFToTxs opts s t branchID g w = (s, [], w) := by
  simp only [forwardPropagateBranchGoFToTxs, h]
  rw [if_neg hbr, if_neg hmax]
  have hc : ¬ (SetGradeOfFinality tm.gradeOfFinality g).2 = true := by
    rw [SetGoF_true_iff]
    exact hge
  rw [if_neg hc]

theorem forwardPropagate_raise (opts : Options) (s : GState) (t branchID : Nat)
    (g : GoF) (w : Walker) (tm : TransactionMeta)
    (h : s.stores.transactionMetadata t = some tm) (hbr : ¬ tm.branchID ≠ branchID)
    (hmax : ¬ maxAttachmentGoF s t < g) (hlt : tm.gradeOfFinality < g) :
    (forwardPropagateBranchGoFToTxs opts s t branchID g w).1
        = setOutputsGoF (setTxMeta s t { tm with gradeOfFinality := g }) (outsOf s t) g ∧
      (forwardPropagateBranchGoFToTxs opts s t branchID g w).2.1
        = if opts.BranchGoFReachedLevel ≤ g then [Event.transactionConfirmed t] else [] := by
  simp only [forwardPropagateBranchGoFToTxs, h]
  rw [if_neg hbr, if_neg hmax]
  rw [SetGoF_fst _ _ hlt, if_pos ((SetGoF_true_iff _ _).mpr hlt)]
  cases ho : s.tangle.txOutputs t <;>
    simp [ho, outsOf, setOutputsGoF, adjustOutputs_state]

theorem propagateGoF_skip (opts : Options) (g : GoF) (s : GState) (mid : Nat) (w : Walker)
    (h : s.tangle.strongParents mid = none ∨ s.stores.messageMetadata mid = none) :
    propagateGoF opts g s mid w = (s, [], w) := by
  rcases h with h | h
  · cases hmm : s.stores.messageMetadata mid <;> simp [propagateGoF, h, hmm]
  · cases hsp : s.tangle.strongParents mid <;> simp [propagateGoF, h, hsp]

theorem propagateGoF_prune (opts : Options) (g : GoF) (s : GState) (mid : Nat) (w : Walker)
    (parents : List Nat) (mm : MessageMeta)
    (hsp : s.tangle.strongParents mid = some parents)
    (hmm : s.stores.messageMetadata mid = some mm)
    (hstop : mm.isPastMarker = true ∧ g ≤ mm.gradeOfFinality) :
    propagateGoF opts g s mid w = (s, [], w) := by
  simp only [propagateGoF, hsp, hmm]
  rw [if_pos hstop]

theorem propagateGoF_noRaise (opts : Options) (g : GoF) (s : GState) (mid : Nat) (w : Walker)
    (parents : List Nat) (mm : MessageMeta)
    (hsp : s.tangle.strongParents mid = some parents)
    (hmm : s.stores.messageMetadata mid = some mm)
    (hnstop : ¬ (mm.isPastMarker = true ∧ g ≤ mm.gradeOfFinality))
    (hge : ¬ mm.gradeOfFinality < g) :
    propagateGoF opts g s mid w = (s, [], w) := by
  simp only [propagateGoF, hsp, hmm]
  rw [if_neg hnstop, setMessageGoF_noRaise opts s mid mm g hge]
  simp

theorem propagateGoF_raise (opts : Options) (g : GoF) (s : GState) (mid : Nat) (w : Walker)
    (parents : List Nat) (mm : MessageMeta)
    (hsp : s.tangle.strongParents mid = some parents)
    (hmm : s.stores.messageMetadata mid = some mm)
    (hnstop : ¬ (mm.isPastMarker = true ∧ g ≤ mm.gradeOfFinality))
    (hlt : mm.gradeOfFinality < g) :
    propagateGoF opts g s mid w =
      ((setPayloadGoF opts (setMsgMeta s mid { mm with gradeOfFinality := g }) mid g).1,
       (if opts.MessageGoFReachedLevel ≤ g
        then (setPayloadGoF opts (setMsgMeta s mid { mm with gradeOfFinality := g }) mid g).2
          ++ [Event.messageConfirmed mid]
        else (setPayloadGoF opts (setMsgMeta s mid { mm with gradeOfFinality := g }) mid g).2),
       pushAll w parents) := by
  simp only [propagateGoF, hsp, hmm]
  rw [if_neg hnstop, setMessageGoF_raise opts s mid mm g hlt]
  simp

theorem setMsgMeta_mono (s : GState) (k : Nat) (mm v : MessageMeta)
    (hmm : s.stores.messageMetadata k = some mm)
    (hle : mm.gradeOfFinality ≤ v.gradeOfFinality) :
    StoresMono s.stores (setMsgMeta s k v).stores := by
  refine ⟨?_, ?_, ?_⟩
  · intro i
    rw [setMsgMeta_msgMeta]
    by_cases hik : i = k
    · subst hik
      simp [hmm, OptMono, hle]
    · simp only [hik, if_neg, if_false]
      cases s.stores.messageMetadata i <;> simp [OptMono]
  · intro i
    rw [setMsgMeta_txMeta]
    cases s.stores.transactionMetadata i <;> simp [OptMono]
  · intro i
    rw [setMsgMeta_outMeta]
    cases s.stores.outputMetadata i <;> simp [OptMono]

theorem setPayloadGoF_mono_inv (opts : Options) (s : GState) (mid : Nat) (g : GoF)
    (hinv : GadgetInv s) :
    StoresMono s.stores (setPayloadGoF opts s mid g).1.stores ∧
      GadgetInv (setPayloadGoF opts s mid g).1 := by
  cases hpay : s.tangle.payload mid with
  | none =>
    rw [setPayloadGoF_noPayload opts s mid g hpay]
    exact ⟨storesMono_refl _, hinv⟩
  | some txID =>
    cases htm : s.stores.transactionMetadata txID with
    | none =>
      rw [setPayloadGoF_noMeta opts s mid g txID hpay htm]
      exact ⟨storesMono_refl _, hinv⟩
    | some tm =>
      by_cases hlt : tm.gradeOfFinality < (if s.tangle.conflicting txID = true
          then opts.BranchTransFunc txID (s.tangle.branchWeight txID) else g)
      · rw [setPayloadGoF_raise opts s mid g txID tm _ hpay htm rfl hlt]
        exact raise_tx_mono_inv s txID tm _ htm hlt hinv
      · rw [setPayloadGoF_noRaise opts s mid g txID tm _ hpay htm rfl hlt]
        exact ⟨storesMono_refl _, hinv⟩

theorem setMessageGoF_mono_inv (opts : Options) (s : GState) (mid : Nat) (mm : MessageMeta)
    (g : GoF) (hmm : s.stores.messageMetadata mid = some mm) (hinv : GadgetInv s) :
    StoresMono s.stores (setMessageGoF opts s mid mm g).1.stores ∧
      GadgetInv (setMessageGoF opts s mid mm g).1 := by
  by_cases hlt : mm.gradeOfFinality < g
  · rw [setMessageGoF_raise opts s mid mm g hlt]
    have hinv1 : GadgetInv (setMsgMeta s mid { mm with gradeOfFinality := g }) :=
      gadgetInv_transport rfl rfl rfl hinv
    have hm1 := setMsgMeta_mono s mid mm { mm with gradeOfFinality := g } hmm (le_of_lt hlt)
    have h2 := setPayloadGoF_mono_inv opts (setMsgMeta s mid { mm with gradeOfFinality := g })
      mid g hinv1
    exact ⟨storesMono_trans hm1 h2.1, h2.2⟩
  · rw [setMessageGoF_noRaise opts s mid mm g hlt]
    exact ⟨storesMono_refl _, hinv⟩

theorem propagateGoF_mono_inv (opts : Options) (g : GoF) (s : GState) (mid : Nat)
    (w : Walker) (hinv : GadgetInv s) :
    StoresMono s.stores (propagateGoF opts g s mid w).1.stores ∧
      GadgetInv (propagateGoF opts g s mid w).1 := by
  cases hsp : s.tangle.strongParents mid with
  | none =>
    rw [propagateGoF_skip opts g s mid w (Or.inl hsp)]
    exact ⟨storesMono_refl _, hinv⟩
  | some parents =>
    cases hmm : s.stores.messageMetadata mid with
    | none =>
      rw [propagateGoF_skip opts g s mid w (Or.inr hmm)]
      exact ⟨storesMono_refl _, hinv⟩
    | some mm =>
      by_cases hstop : mm.isPastMarker = true ∧ g ≤ mm.gradeOfFinality
      · rw [propagateGoF_prune opts g s mid w parents mm hsp hmm hstop]
        exact ⟨storesMono_refl _, hinv⟩
      · by_cases hlt : mm.gradeOfFinality < g
        · rw [propagateGoF_raise opts g s mid w parents mm hsp hmm hstop hlt]
          exact setMessageGoF_mono_inv opts s mid mm g hmm hinv |>.imp
            (fun h => by
              rw [setMessageGoF_raise opts s mid mm g hlt] at h
              exact h)
            (fun h => by
              rw [setMessageGoF_raise opts s mid mm g hlt] at h
              exact h)
        · rw [propagateGoF_noRaise opts g s mid w parents mm hsp hmm hstop hlt]
          exact ⟨storesMono_refl _, hinv⟩

theorem forwardPropagate_mono_inv (opts : Options) (s : GState) (t branchID : Nat)
    (g : GoF) (w : Walker) (hinv : GadgetInv s) :
    StoresMono s.stores (forwardPropagateBranchGoFToTxs opts s t branchID g w).1.stores ∧
      GadgetInv (forwardPropagateBranchGoFToTxs opts s t branchID g w).1 := by
  cases htm : s.stores.transactionMetadata t with
  | none =>
    rw [forwardPropagate_noMeta opts s t branchID g w htm]
    exact ⟨storesMono_refl _, hinv⟩
  | some tm =>
    by_cases hbr : tm.branchID ≠ branchID
    · rw [forwardPropagate_wrongBranch opts s t branchID g w tm htm hbr]
      exact ⟨storesMono_refl _, hinv⟩
    · by_cases hmax : maxAttachmentGoF s t < g
      · rw [forwardPropagate_lowAttachment opts s t branchID g w tm htm hmax]
        exact ⟨storesMono_refl _, hinv⟩
      · by_cases hlt : tm.gradeOfFinality < g
        · have heq := forwardPropagate_raise opts s t branchID g w tm htm hbr hmax hlt
          rw [heq.1]
          exact raise_tx_mono_inv s t tm g htm hlt hinv
        · rw [forwardPropagate_noRaise opts s t branchID g w tm htm hbr hmax hlt]
          exact ⟨storesMono_refl _, hinv⟩

theorem HandleMarker_gofNone (opts : Options) (s : GState) (marker : Nat) (aw : ℚ)
    (fuel : Nat) (h : opts.MessageTransFunc aw = GoF.None) :
    HandleMarker opts s marker aw fuel = (s, [], none) := by
  simp [HandleMarker, h]

theorem HandleMarker_noMeta (opts : Options) (s : GState) (marker : Nat) (aw : ℚ)
    (fuel : Nat) (hg : opts.MessageTransFunc aw ≠ GoF.None)
    (hmm : s.stores.messageMetadata (s.tangle.markerMessage marker) = none) :
    HandleMarker opts s marker aw fuel = (s, [], none) := by
  simp [HandleMarker, hg, hmm]

theorem HandleMarker_noIncrease (opts : Options) (s : GState) (marker : Nat) (aw : ℚ)
    (fuel : Nat) (mm : MessageMeta) (hg : opts.MessageTransFunc aw ≠ GoF.None)
    (hmm : s.stores.messageMetadata (s.tangle.markerMessage marker) = some mm)
    (hge : ¬ mm.gradeOfFinality < opts.MessageTransFunc aw) :
    HandleMarker opts s marker aw fuel = (s, [], none) := by
  simp [HandleMarker, hg, hmm, hge]

theorem HandleMarker_walk (opts : Options) (s : GState) (marker : Nat) (aw : ℚ)
    (fuel : Nat) (mm : MessageMeta) (hg : opts.MessageTransFunc aw ≠ GoF.None)
    (hmm : s.stores.messageMetadata (s.tangle.markerMessage marker) = some mm)
    (hlt : mm.gradeOfFinality < opts.MessageTransFunc aw) :
    HandleMarker opts s marker aw fuel =
      ((walkLoop (fun s' m w => propagateGoF opts (opts.MessageTransFunc aw) s' m w) fuel s
          (Walker.push { queue := [], pushed := [] } (s.tangle.markerMessage marker))).1,
       (walkLoop (fun s' m w => propagateGoF opts (opts.MessageTransFunc aw) s' m w) fuel s
          (Walker.push { queue := [], pushed := [] } (s.tangle.markerMessage marker))).2,
       none) := by
  simp [HandleMarker, hg, hmm, hlt]

theorem HandleBranch_eq (opts : Options) (s : GState) (branchID : Nat) (aw : ℚ)
    (fuel : Nat) :
    HandleBranch opts s branchID aw fuel =
      ((walkLoop (fun s' t w => forwardPropagateBranchGoFToTxs opts s' t branchID
          (opts.BranchTransFunc branchID aw) w) fuel s
          (Walker.push { queue := [], pushed := [] } branchID)).1,
       (if opts.BranchGoFReachedLevel ≤ opts.BranchTransFunc branchID aw
        then (walkLoop (fun s' t w => forwardPropagateBranchGoFToTxs opts s' t branchID
            (opts.BranchTransFunc branchID aw) w) fuel s
            (Walker.push { queue := [], pushed := [] } branchID)).2
          ++ [Event.branchConfirmed branchID]
        else (walkLoop (fun s' t w => forwardPropagateBranchGoFToTxs opts s' t branchID
            (opts.BranchTransFunc branchID aw) w) fuel s
            (Walker.push { queue := [], pushed := [] } branchID)).2),
       none) := rfl

theorem HandleMarker_mono_inv (opts : Options) (s : GState) (marker : Nat) (aw : ℚ)
    (fuel : Nat) (hinv : GadgetInv s) :
    StoresMono s.stores (HandleMarker opts s marker aw fuel).1.stores ∧
      GadgetInv (HandleMarker opts s marker aw fuel).1 := by
  by_cases hg : opts.MessageTransFunc aw = GoF.None
  · rw [HandleMarker_gofNone opts s marker aw fuel hg]
    exact ⟨storesMono_refl _, hinv⟩
  · cases hmm : s.stores.messageMetadata (s.tangle.markerMessage marker) with
    | none =>
      rw [HandleMarker_noMeta opts s marker aw fuel hg hmm]
      exact ⟨storesMono_refl _, hinv⟩
    | some mm =>
      by_cases hlt : mm.gradeOfFinality < opts.MessageTransFunc aw
      · rw [HandleMarker_walk opts s marker aw fuel mm hg hmm hlt]
        exact walkLoop_mono_inv _
          (fun s' t w h => propagateGoF_mono_inv opts (opts.MessageTransFunc aw) s' t w h)
          fuel s _ hinv
      · rw [HandleMarker_noIncrease opts s marker aw fuel mm hg hmm hlt]
        exact ⟨storesMono_refl _, hinv⟩

theorem HandleBranch_mono_inv (opts : Options) (s : GState) (branchID : Nat) (aw : ℚ)
    (fuel : Nat) (hinv : GadgetInv s) :
    StoresMono s.stores (HandleBranch opts s branchID aw fuel).1.stores ∧
      GadgetInv (HandleBranch opts s branchID aw fuel).1 := by
  rw [HandleBranch_eq]
  exact walkLoop_mono_inv _
    (fun s' t w h => forwardPropagate_mono_inv opts s' t branchID
      (opts.BranchTransFunc branchID aw) w h)
    fuel s _ hinv

theorem runCall_mono_inv (opts : Options) (s : GState) (c : Call) (hinv : GadgetInv s) :
    StoresMono s.stores (runCall opts s c).stores ∧ GadgetInv (runCall opts s c) := by
  cases c with
  | marker m aw fuel => exact HandleMarker_mono_inv opts s m aw fuel hinv
  | branch b aw fuel => exact HandleBranch_mono_inv opts s b aw fuel hinv

theorem runCalls_mono_inv (opts : Options) (calls : List Call) (s : GState)
    (hinv : GadgetInv s) :
    StoresMono s.stores (runCalls opts calls s).stores ∧ GadgetInv (runCalls opts calls s) := by
  induction calls generalizing s with
  | nil => exact ⟨storesMono_refl _, hinv⟩
  | cons c cs ih =>
    have h1 := runCall_mono_inv opts s c hinv
    have h2 := ih (runCall opts s c) h1.2
    exact ⟨storesMono_trans h1.1 h2.1, h2.2⟩

/-- Between states `s` and `s'`, message `m`'s stored grade of finality strictly increased. -/
def RaisedAtMsg (s s' : GState) (m : Nat) : Prop :=
  ∃ a b, s.stores.messageMetadata m = some a ∧ s'.stores.messageMetadata m = some b ∧
    a.gradeOfFinality < b.gradeOfFinality

/-- Between states `s` and `s'`, transaction `t`'s stored grade of finality strictly
increased. -/
def RaisedAtTx (s s' : GState) (t : Nat) : Prop :=
  ∃ a b, s.stores.transactionMetadata t = some a ∧ s'.stores.transactionMetadata t = some b ∧
    a.gradeOfFinality < b.gradeOfFinality

/-- An emitted event is justified by a strict raise of the corresponding entity between
`s` and `s'` (no branch event is ever emitted inside a propagation walk). -/
def EventOK (s s' : GState) : Event → Prop
  | .messageConfirmed m => RaisedAtMsg s s' m
  | .transactionConfirmed t => RaisedAtTx s s' t
  | .branchConfirmed _ => False

theorem raisedAtMsg_mono_right {s s1 s2 : GState} {m : Nat} (h : RaisedAtMsg s s1 m)
    (hm : StoresMono s1.stores s2.stores) : RaisedAtMsg s s2 m := by
  obtain ⟨a, b, ha, hb, hab⟩ := h
  have hmb := hm.1 m
  cases hc : s2.stores.messageMetadata m with
  | none => rw [hb, hc] at hmb; simp [OptMono] at hmb
  | some c =>
    rw [hb, hc] at hmb
    simp only [OptMono] at hmb
    exact ⟨a, c, ha, hc, lt_of_lt_of_le hab hmb⟩

theorem raisedAtMsg_mono_left {s s1 s2 : GState} {m : Nat}
    (hm : StoresMono s.stores s1.stores) (h : RaisedAtMsg s1 s2 m) : RaisedAtMsg s s2 m := by
  obtain ⟨a, b, ha, hb, hab⟩ := h
  have hma := hm.1 m
  cases hc : s.stores.messageMetadata m with
  | none => rw [hc, ha] at hma; simp [OptMono] at hma
  | some a0 =>
    rw [hc, ha] at hma
    simp only [OptMono] at hma
    exact ⟨a0, b, hc, hb, lt_of_le_of_lt hma hab⟩

theorem raisedAtTx_mono_right {s s1 s2 : GState} {t : Nat} (h : RaisedAtTx s s1 t)
    (hm : StoresMono s1.stores s2.stores) : RaisedAtTx s s2 t := by
  obtain ⟨a, b, ha, hb, hab⟩ := h
  have hmb := hm.2.1 t
  cases hc : s2.stores.transactionMetadata t with
  | none => rw [hb, hc] at hmb; simp [OptMono] at hmb
  | some c =>
    rw [hb, hc] at hmb
    simp only [OptMono] at hmb
    exact ⟨a, c, ha, hc, lt_of_lt_of_le hab hmb⟩

theorem raisedAtTx_mono_left {s s1 s2 : GState} {t : Nat}
    (hm : StoresMono s.stores s1.stores) (h : RaisedAtTx s1 s2 t) : RaisedAtTx s s2 t := by
  obtain ⟨a, b, ha, hb, hab⟩ := h
  have hma := hm.2.1 t
  cases hc : s.stores.transactionMetadata t with
  | none => rw [hc, ha] at hma; simp [OptMono] at hma
  | some a0 =>
    rw [hc, ha] at hma
    simp only [OptMono] at hma
    exact ⟨a0, b, hc, hb, lt_of_le_of_lt hma hab⟩

theorem eventOK_mono_right {s s1 s2 : GState} {e : Event} (h : EventOK s s1 e)
    (hm : StoresMono s1.stores s2.stores) : EventOK s s2 e := by
  cases e with
  | messageConfirmed m => exact raisedAtMsg_mono_right h hm
  | transactionConfirmed t => exact raisedAtTx_mono_right h hm
  | branchConfirmed b => exact h.elim

theorem eventOK_mono_left {s s1 s2 : GState} {e : Event}
    (hm : StoresMono s.stores s1.stores) (h : EventOK s1 s2 e) : EventOK s s2 e := by
  cases e with
  | messageConfirmed m => exact raisedAtMsg_mono_left hm h
  | transactionConfirmed t => exact raisedAtTx_mono_left hm h
  | branchConfirmed b => exact h.elim

theorem walkLoop_events (step : GState → Nat → Walker → GState × List Event × Walker)
    (hmono : ∀ s t w, GadgetInv s →
      StoresMono s.stores (step s t w).1.stores ∧ GadgetInv (step s t w).1)
    (hev : ∀ s t w, GadgetInv s → ∀ e ∈ (step s t w).2.1, EventOK s (step s t w).1 e) :
    ∀ (fuel : Nat) (s : GState) (w : Walker), GadgetInv s →
      ∀ e ∈ (walkLoop step fuel s w).2, EventOK s (walkLoop step fuel s w).1 e := by
  intro fuel
  induction fuel with
  | zero =>
    intro s w _ e he
    simp [walkLoop] at he
  | succ n ih =>
    intro s w hinv e he
    cases hq : w.queue with
    | nil =>
      rw [walkLoop_nil _ _ _ _ hq] at he
      simp at he
    | cons t rest =>
      simp only [walkLoop, hq] at he ⊢
      rw [List.mem_append] at he
      have h1 := hmono s t { w with queue := rest } hinv
      rcases he with he | he
      · have hek := hev s t { w with queue := rest } hinv e he
        have h2 := walkLoop_mono_inv step hmono n (step s t { w with queue := rest }).1
          (step s t { w with queue := rest }).2.2 h1.2
        exact eventOK_mono_right hek h2.1
      · have hek := ih (step s t { w with queue := rest }).1
          (step s t { w with queue := rest }).2.2 h1.2 e he
        exact eventOK_mono_left h1.1 hek

theorem walkLoop_events_shape (step : GState → Nat → Walker → GState × List Event × Walker)
    (P : Event → Prop) (hstep : ∀ s t w, ∀ e ∈ (step s t w).2.1, P e) :
    ∀ (fuel : Nat) (s : GState) (w : Walker), ∀ e ∈ (walkLoop step fuel s w).2, P e := by
  intro fuel
  induction fuel with
  | zero =>
    intro s w e he
    simp [walkLoop] at he
  | succ n ih =>
    intro s w e he
    cases hq : w.queue with
    | nil =>
      rw [walkLoop_nil _ _ _ _ hq] at he
      simp at he
    | cons t rest =>
      simp only [walkLoop, hq] at he
      rw [List.mem_append] at he
      rcases he with he | he
      · exact hstep s t { w with queue := rest } e he
      · exact ih _ _ e he

theorem setPayloadGoF_events (opts : Options) (s : GState) (mid : Nat) (g : GoF) :
    ∀ e ∈ (setPayloadGoF opts s mid g).2,
      ∃ t, e = Event.transactionConfirmed t ∧ RaisedAtTx s (setPayloadGoF opts s mid g).1 t := by
  cases hpay : s.tangle.payload mid with
  | none =>
    simp only [setPayloadGoF_noPayload opts s mid g hpay]
    intro e he
    simp at he
  | some txID =>
    cases htm : s.stores.transactionMetadata txID with
    | none =>
      simp only [setPayloadGoF_noMeta opts s mid g txID hpay htm]
      intro e he
      simp at he
    | some tm =>
      set g2 := (if s.tangle.conflicting txID = true
          then opts.BranchTransFunc txID (s.tangle.branchWeight txID) else g) with hg2
      by_cases hlt : tm.gradeOfFinality < g2
      · have hst : (setPayloadGoF opts s mid g).1
            = setOutputsGoF (setTxMeta s txID { tm with gradeOfFinality := g2 })
                (outsOf s txID) g2 := by
          rw [setPayloadGoF_raise opts s mid g txID tm g2 hpay htm hg2.symm hlt]
        have hev : (setPayloadGoF opts s mid g).2
            = if opts.BranchGoFReachedLevel ≤ g2
              then [Event.transactionConfirmed txID] else [] := by
          rw [setPayloadGoF_raise opts s mid g txID tm g2 hpay htm hg2.symm hlt]
        intro e he
        rw [hev] at he
        by_cases hc : opts.BranchGoFReachedLevel ≤ g2
        · rw [if_pos hc] at he
          simp only [List.mem_singleton] at he
          subst he
          refine ⟨txID, rfl, ?_⟩
          rw [hst]
          refine ⟨tm, { tm with gradeOfFinality := g2 }, htm, ?_, hlt⟩
          rw [setOutputsGoF_txMeta, setTxMeta_txMeta]
          simp
        · rw [if_neg hc] at he
          simp at he
      · have hev : (setPayloadGoF opts s mid g).2 = [] := by
          rw [setPayloadGoF_noRaise opts s mid g txID tm g2 hpay htm hg2.symm hlt]
        intro e he
        rw [hev] at he
        simp at he

theorem forwardPropagate_events (opts : Options) (s : GState) (t branchID : Nat)
    (g : GoF) (w : Walker) :
    ∀ e ∈ (forwardPropagateBranchGoFToTxs opts s t branchID g w).2.1,
      ∃ t', e = Event.transactionConfirmed t' ∧
        RaisedAtTx s (forwardPropagateBranchGoFToTxs opts s t branchID g w).1 t' := by
  cases htm : s.stores.transactionMetadata t with
  | none =>
    simp only [forwardPropagate_noMeta opts s t branchID g w htm]
    intro e he
    simp at he
  | some tm =>
    by_cases hbr : tm.branchID ≠ branchID
    · simp only [forwardPropagate_wrongBranch opts s t branchID g w tm htm hbr]
      intro e he
      simp at he
    · by_cases hmax : maxAttachmentGoF s t < g
      · simp only [forwardPropagate_lowAttachment opts s t branchID g w tm htm hmax]
        intro e he
        simp at he
      · by_cases hlt : tm.gradeOfFinality < g
        · have heq := forwardPropagate_raise opts s t branchID g w tm htm hbr hmax hlt
          intro e he
          rw [heq.2] at he
          by_cases hc : opts.BranchGoFReachedLevel ≤ g
          · rw [if_pos hc] at he
            simp only [List.mem_singleton] at he
            subst he
            refine ⟨t, rfl, ?_⟩
            rw [heq.1]
            refine ⟨tm, { tm with gradeOfFinality := g }, htm, ?_, hlt⟩
            rw [setOutputsGoF_txMeta, setTxMeta_txMeta]
            simp
          · rw [if_neg hc] at he
            simp at he
        · simp only [forwardPropagate_noRaise opts s t branchID g w tm htm hbr hmax hlt]
          intro e he
          simp at he

theorem propagateGoF_events (opts : Options) (g : GoF) (s : GState) (mid : Nat)
    (w : Walker) :
    ∀ e ∈ (propagateGoF opts g s mid w).2.1, EventOK s (propagateGoF opts g s mid w).1 e := by
  cases hsp : s.tangle.strongParents mid with
  | none =>
    simp only [propagateGoF_skip opts g s mid w (Or.inl hsp)]
    intro e he
    simp at he
  | some parents =>
    cases hmm : s.stores.messageMetadata mid with
    | none =>
      simp only [propagateGoF_skip opts g s mid w (Or.inr hmm)]
      intro e he
      simp at he
    | some mm =>
      by_cases hstop : mm.isPastMarker = true ∧ g ≤ mm.gradeOfFinality
      · simp only [propagateGoF_prune opts g s mid w parents mm hsp hmm hstop]
        intro e he
        simp at he
      · by_cases hlt : mm.gradeOfFinality < g
        · have heq := propagateGoF_raise opts g s mid w parents mm hsp hmm hstop hlt
          have hst : (propagateGoF opts g s mid w).1
              = (setPayloadGoF opts (setMsgMeta s mid { mm with gradeOfFinality := g })
                  mid g).1 := by
            rw [heq]
          have hev : (propagateGoF opts g s mid w).2.1
              = (if opts.MessageGoFReachedLevel ≤ g
                 then (setPayloadGoF opts (setMsgMeta s mid { mm with gradeOfFinality := g })
                     mid g).2 ++ [Event.messageConfirmed mid]
                 else (setPayloadGoF opts (setMsgMeta s mid { mm with gradeOfFinality := g })
                     mid g).2) := by
            rw [heq]
          intro e he
          rw [hev] at he
          rw [hst]
          have hmain : ∀ e' ∈ (setPayloadGoF opts
              (setMsgMeta s mid { mm with gradeOfFinality := g }) mid g).2,
              EventOK s (setPayloadGoF opts
                (setMsgMeta s mid { mm with gradeOfFinality := g }) mid g).1 e' := by
            intro e' he'
            obtain ⟨t', rfl, hr⟩ := setPayloadGoF_events opts
              (setMsgMeta s mid { mm with gradeOfFinality := g }) mid g e' he'
            obtain ⟨a, b, ha, hb, hab⟩ := hr
            rw [setMsgMeta_txMeta] at ha
            exact ⟨a, b, ha, hb, hab⟩
          by_cases hc : opts.MessageGoFReachedLevel ≤ g
          · rw [if_pos hc] at he
            rw [List.mem_append] at he
            rcases he with he | he
            · exact hmain e he
            · simp only [List.mem_singleton] at he
              subst he
              refine ⟨mm, { mm with gradeOfFinality := g }, hmm, ?_, hlt⟩
              rw [setPayloadGoF_msgMeta, setMsgMeta_msgMeta]
              simp
          · rw [if_neg hc] at he
            exact hmain e he
        · simp only [propagateGoF_noRaise opts g s mid w parents mm hsp hmm hstop hlt]
          intro e he
          simp at he

theorem markerWalk_result (opts : Options) (g : GoF) (fuel : Nat) (s : GState) (mid : Nat)
    (mm : MessageMeta) (hmm : s.stores.messageMetadata mid = some mm)
    (hlt : mm.gradeOfFinality < g) :
    (walkLoop (fun s' m w => propagateGoF opts g s' m w) fuel s
        (Walker.push { queue := [], pushed := [] } mid)) = (s, [])
      ∨ (walkLoop (fun s' m w => propagateGoF opts g s' m w) fuel s
          (Walker.push { queue := [], pushed := [] } mid)).1.stores.messageMetadata mid
        = some { mm with gradeOfFinality := g } := by
  have hpush : Walker.push { queue := [], pushed := [] } mid
      = { queue := [mid], pushed := [mid] } := by
    simp [Walker.push]
  rw [hpush]
  cases fuel with
  | zero => exact Or.inl rfl
  | succ n =>
    cases hsp : s.tangle.strongParents mid with
    | none =>
      left
      simp only [walkLoop]
      rw [propagateGoF_skip opts g s mid { queue := [], pushed := [mid] } (Or.inl hsp)]
      rw [walkLoop_nil _ _ _ _ rfl]
      rfl
    | some parents =>
      right
      simp only [walkLoop]
      have hnstop : ¬ (mm.isPastMarker = true ∧ g ≤ mm.gradeOfFinality) := by
        rintro ⟨-, hge⟩
        exact absurd hlt (not_lt.mpr hge)
      have heq := propagateGoF_raise opts g s mid { queue := [], pushed := [mid] }
        parents mm hsp hmm hnstop hlt
      have h1 : (propagateGoF opts g s mid { queue := [], pushed := [mid] }).1
          = (setPayloadGoF opts (setMsgMeta s mid { mm with gradeOfFinality := g })
              mid g).1 := by
        rw [heq]
      have h2 : (propagateGoF opts g s mid { queue := [], pushed := [mid] }).2.2
          = pushAll { queue := [], pushed := [mid] } parents := by
        rw [heq]
      rw [h1, h2]
      have hw := @pushAll_inv mid parents { queue := [], pushed := [mid] }
        (by simp) (by simp)
      rw [walkLoop_msgMeta_preserve _
        (fun s' t w hp hq => propagateGoF_walker_inv opts g s' t w hp hq)
        (fun s' t w htx => propagateGoF_msgMeta_ne opts g s' t w (Ne.symm htx))
        n _ _ hw.1 hw.2]
      rw [setPayloadGoF_msgMeta, setMsgMeta_msgMeta]
      simp

/-- C1: the spec claims `IsTransactionConfirmed` returns true iff the transaction's stored
grade of finality is at least the configured branch confirmed level
(`BranchGoFReachedLevel`).  The code (line 196) compares against `MessageGoFReachedLevel`
instead.  With branch level Low, message level High, and a transaction stored at Medium,
the claim demands `true` (Medium ≥ Low) but the code returns `false` (Medium < High).
This contradicts the gadget's own transaction-confirmation events, which use
`BranchGoFReachedLevel` (lines 316 and 381), so the comparison level in the query is a
slip in the code. -/
theorem C1_code_divergence :
    IsTransactionConfirmed optsSplit sMedTx 7 = false
      ∧ optsSplit.BranchGoFReachedLevel ≤ GoF.Medium
      ∧ sMedTx.stores.transactionMetadata 7
        = some { gradeOfFinality := GoF.Medium, branchID := 0 } :=
  ⟨rfl, by decide, rfl⟩

/-- C5: a marker that does not resolve to a message — resolution yields the
`emptyMessageID` sentinel and no message metadata is stored under that sentinel — with a
weight whose translation is not None, makes `HandleMarker` a complete no-op: the state is
unchanged (no message, transaction or output metadata written), no events are emitted, and
the returned error is nil. -/
theorem C5_unresolved_marker_noop (opts : Options) (s : GState) (marker : Nat) (aw : ℚ)
    (fuel : Nat) (hg : opts.MessageTransFunc aw ≠ GoF.None)
    (hres : s.tangle.markerMessage marker = emptyMessageID)
    (hmm : s.stores.messageMetadata emptyMessageID = none) :
    HandleMarker opts s marker aw fuel = (s, [], none) := by
  apply HandleMarker_noMeta opts s marker aw fuel hg
  rw [hres]
  exact hmm

theorem C5_witness :
    (defaultOpts.MessageTransFunc (3/5) ≠ GoF.None
      ∧ sEmpty.tangle.markerMessage 3 = emptyMessageID
      ∧ sEmpty.stores.messageMetadata emptyMessageID = none)
    ∧ HandleMarker defaultOpts sEmpty 3 (3/5) 5 = (sEmpty, [], none) := by
  have hg : defaultOpts.MessageTransFunc (3/5) = GoF.High := by
    norm_num [defaultOpts, DefaultMessageGoFTranslation]
  have hne : defaultOpts.MessageTransFunc (3/5) ≠ GoF.None := by
    rw [hg]
    decide
  exact ⟨⟨hne, rfl, rfl⟩,
    C5_unresolved_marker_noop defaultOpts sEmpty 3 (3/5) 5 hne rfl rfl⟩

/-- C6: during `HandleBranch` forward propagation, a dequeued transaction whose maximum
grade of finality over all attaching messages is strictly below the candidate is not
raised: the state is returned unchanged (no transaction metadata write, no output update),
no event is emitted, and the walker is untouched (no consumer transaction enqueued). -/
theorem C6_attachment_cap (opts : Options) (s : GState) (t branchID : Nat) (g : GoF)
    (w : Walker) (hmax : maxAttachmentGoF s t < g) :
    forwardPropagateBranchGoFToTxs opts s t branchID g w = (s, [], w) := by
  cases htm : s.stores.transactionMetadata t with
  | none => exact forwardPropagate_noMeta opts s t branchID g w htm
  | some tm => exact forwardPropagate_lowAttachment opts s t branchID g w tm htm hmax

theorem C6_witness :
    maxAttachmentGoF sTwoTx 4 < GoF.High
      ∧ forwardPropagateBranchGoFToTxs defaultOpts sTwoTx 4 9 GoF.High
          { queue := [], pushed := [] }
        = (sTwoTx, [], { queue := [], pushed := [] }) :=
  ⟨by decide, C6_attachment_cap defaultOpts sTwoTx 4 9 GoF.High
    { queue := [], pushed := [] } (by decide)⟩

/-- C7: during `HandleBranch(branchID, w)` forward propagation, a dequeued transaction
whose recorded branch membership differs from `branchID` is left entirely unchanged — the
state is returned as is (no grade-of-finality raise, no output update), no event is
emitted, and the walker is untouched (nothing further enqueued from it) — regardless of how
the transaction was reached through the consumer graph. -/
theorem C7_branch_membership_boundary (opts : Options) (s : GState) (t branchID : Nat)
    (g : GoF) (w : Walker) (tm : TransactionMeta)
    (htm : s.stores.transactionMetadata t = some tm) (hne : tm.branchID ≠ branchID) :
    forwardPropagateBranchGoFToTxs opts s t branchID g w = (s, [], w) :=
  forwardPropagate_wrongBranch opts s t branchID g w tm htm hne

theorem C7_witness :
    sTwoTx.stores.transactionMetadata 2
        = some { gradeOfFinality := GoF.None, branchID := 7 }
      ∧ (7 : Nat) ≠ 9
      ∧ forwardPropagateBranchGoFToTxs defaultOpts sTwoTx 2 9 GoF.High
          { queue := [], pushed := [] }
        = (sTwoTx, [], { queue := [], pushed := [] }) :=
  ⟨rfl, by decide, C7_branch_membership_boundary defaultOpts sTwoTx 2 9 GoF.High
    { queue := [], pushed := [] } { gradeOfFinality := GoF.None, branchID := 7 }
    rfl (by decide)⟩

/-- C8 counterexample: the claim asserts that for some branch input `HandleBranch` returns
a non-nil error (surfacing `ErrUnsupportedBranchType`).  In fact the error component of
`HandleBranch` is nil on every input: the declared `err` result is never assigned
(lines 263-278), and nothing in the file ever returns `ErrUnsupportedBranchType`. -/
theorem C8_counterexample : ¬ ∃ (opts : Options) (s : GState) (branchID : Nat) (aw : ℚ)
    (fuel : Nat), (HandleBranch opts s branchID aw fuel).2.2 ≠ none := by
  rintro ⟨opts, s, b, aw, fuel, h⟩
  exact h rfl

/-- C8 amended: `ErrUnsupportedBranchType` is declared as a named error value
("unsupported branch type"), but `HandleBranch` never surfaces it — the error result of
`HandleBranch` is nil for every branch input. -/
theorem C8_no_error :
    (∀ (opts : Options) (s : GState) (branchID : Nat) (aw : ℚ) (fuel : Nat),
        (HandleBranch opts s branchID aw fuel).2.2 = none)
      ∧ ErrUnsupportedBranchType = "unsupported branch type" :=
  ⟨fun _ _ _ _ _ => rfl, rfl⟩

theorem trans_band_none (w : ℚ) (h : w < 1/5) : DefaultMessageGoFTranslation w = GoF.None := by
  have n1 : ¬ ((1:ℚ)/5 ≤ w ∧ w < 3/10) := by
    rintro ⟨h1, -⟩
    linarith
  have n2 : ¬ ((3:ℚ)/10 ≤ w ∧ w < 1/2) := by
    rintro ⟨h1, -⟩
    linarith
  have n3 : ¬ (1:ℚ)/2 ≤ w := by linarith
  unfold DefaultMessageGoFTranslation
  rw [if_neg n1, if_neg n2, if_neg n3]

theorem trans_band_low (w : ℚ) (h1 : 1/5 ≤ w) (h2 : w < 3/10) :
    DefaultMessageGoFTranslation w = GoF.Low := by
  unfold DefaultMessageGoFTranslation
  rw [if_pos ⟨h1, h2⟩]

theorem trans_band_medium (w : ℚ) (h1 : 3/10 ≤ w) (h2 : w < 1/2) :
    DefaultMessageGoFTranslation w = GoF.Medium := by
  have n1 : ¬ ((1:ℚ)/5 ≤ w ∧ w < 3/10) := by
    rintro ⟨-, hb⟩
    linarith
  unfold DefaultMessageGoFTranslation
  rw [if_neg n1, if_pos ⟨h1, h2⟩]

theorem trans_band_high (w : ℚ) (h : 1/2 ≤ w) : DefaultMessageGoFTranslation w = GoF.High := by
  have n1 : ¬ ((1:ℚ)/5 ≤ w ∧ w < 3/10) := by
    rintro ⟨-, hb⟩
    linarith
  have n2 : ¬ ((3:ℚ)/10 ≤ w ∧ w < 1/2) := by
    rintro ⟨-, hb⟩
    linarith
  unfold DefaultMessageGoFTranslation
  rw [if_neg n1, if_neg n2, if_pos h]

/-- C10: the default message and branch threshold translations are identical and map a
weight w to None for w < 0.2, Low for 0.2 ≤ w < 0.3, Medium for 0.3 ≤ w < 0.5 and High for
w ≥ 0.5 (boundaries 1/5, 3/10, 1/2 as exact rationals, inclusive-low/exclusive-high with
the final band unbounded above); in particular 0.2 ↦ Low, 0.19999 ↦ None, 0.3 ↦ Medium and
0.5 ↦ High. -/
theorem C10_default_thresholds (w : ℚ) (branchID : Nat) :
    DefaultMessageGoFTranslation w = DefaultBranchGoFTranslation branchID w
    ∧ (DefaultMessageGoFTranslation w = GoF.None ↔ w < 1/5)
    ∧ (DefaultMessageGoFTranslation w = GoF.Low ↔ 1/5 ≤ w ∧ w < 3/10)
    ∧ (DefaultMessageGoFTranslation w = GoF.Medium ↔ 3/10 ≤ w ∧ w < 1/2)
    ∧ (DefaultMessageGoFTranslation w = GoF.High ↔ 1/2 ≤ w)
    ∧ DefaultMessageGoFTranslation (1/5) = GoF.Low
    ∧ DefaultMessageGoFTranslation (19999/100000) = GoF.None
    ∧ DefaultMessageGoFTranslation (3/10) = GoF.Medium
    ∧ DefaultMessageGoFTranslation (1/2) = GoF.High := by
  refine ⟨rfl, ?_, ?_, ?_, ?_,
    trans_band_low (1/5) (by norm_num) (by norm_num),
    trans_band_none (19999/100000) (by norm_num),
    trans_band_medium (3/10) (by norm_num) (by norm_num),
    trans_band_high (1/2) (by norm_num)⟩
  · constructor
    · intro he
      by_contra hge
      rw [not_lt] at hge
      rcases lt_or_le w (3/10) with h2 | h2
      · rw [trans_band_low w hge h2] at he
        exact absurd he (by decide)
      · rcases lt_or_le w (1/2) with h3 | h3
        · rw [trans_band_medium w h2 h3] at he
          exact absurd he (by decide)
        · rw [trans_band_high w h3] at he
          exact absurd he (by decide)
    · exact trans_band_none w
  · constructor
    · intro he
      rcases lt_or_le w (1/5) with h1 | h1
      · rw [trans_band_none w h1] at he
        exact absurd he (by decide)
      · rcases lt_or_le w (3/10) with h2 | h2
        · exact ⟨h1, h2⟩
        · rcases lt_or_le w (1/2) with h3 | h3
          · rw [trans_band_medium w h2 h3] at he
            exact absurd he (by decide)
          · rw [trans_band_high w h3] at he
            exact absurd he (by decide)
    · rintro ⟨h1, h2⟩
      exact trans_band_low w h1 h2
  · constructor
    · intro he
      rcases lt_or_le w (3/10) with h2 | h2
      · rcases lt_or_le w (1/5) with h1 | h1
        · rw [trans_band_none w h1] at he
          exact absurd he (by decide)
        · rw [trans_band_low w h1 h2] at he
          exact absurd he (by decide)
      · rcases lt_or_le w (1/2) with h3 | h3
        · exact ⟨h2, h3⟩
        · rw [trans_band_high w h3] at he
          exact absurd he (by decide)
    · rintro ⟨h1, h2⟩
      exact trans_band_medium w h1 h2
  · constructor
    · intro he
      rcases lt_or_le w (1/2) with h3 | h3
      · rcases lt_or_le w (1/5) with h1 | h1
        · rw [trans_band_none w h1] at he
          exact absurd he (by decide)
        · rcases lt_or_le w (3/10) with h2 | h2
          · rw [trans_band_low w h1 h2] at he
            exact absurd he (by decide)
          · rw [trans_band_medium w h2 h3] at he
            exact absurd he (by decide)
      · exact h3
    · exact trans_band_high w

/-- C4: when a raised message's level cascades to its transaction payload and that
transaction is conflicting (member of a non-master branch), the candidate applied to the
transaction is `BranchTransFunc(branchID, current branch weight)` — the branch ID being the
one derived from the transaction itself — and the message-derived level is irrelevant (the
cascade result is identical for any message level).  Only if the branch-translated level
strictly raises the transaction are its outputs updated and a `TransactionConfirmed` event
considered; otherwise state and events are untouched.  When raised, the stored level
becomes exactly the branch-translated level. -/
theorem C4_conflicting_payload (opts : Options) (s : GState) (mid : Nat) (g g' : GoF)
    (txID : Nat) (tm : TransactionMeta)
    (hpay : s.tangle.payload mid = some txID)
    (htm : s.stores.transactionMetadata txID = some tm)
    (hconf : s.tangle.conflicting txID = true) :
    setPayloadGoF opts s mid g = setPayloadGoF opts s mid g'
    ∧ (¬ tm.gradeOfFinality < opts.BranchTransFunc txID (s.tangle.branchWeight txID) →
        setPayloadGoF opts s mid g = (s, []))
    ∧ (tm.gradeOfFinality < opts.BranchTransFunc txID (s.tangle.branchWeight txID) →
        (setPayloadGoF opts s mid g).1.stores.transactionMetadata txID
          = some { tm with gradeOfFinality :=
              opts.BranchTransFunc txID (s.tangle.branchWeight txID) }) := by
  have hg2 : ∀ x : GoF, (if s.tangle.conflicting txID = true
      then opts.BranchTransFunc txID (s.tangle.branchWeight txID) else x)
      = opts.BranchTransFunc txID (s.tangle.branchWeight txID) := fun x => if_pos hconf
  refine ⟨?_, ?_, ?_⟩
  · by_cases hlt : tm.gradeOfFinality < opts.BranchTransFunc txID (s.tangle.branchWeight txID)
    · rw [setPayloadGoF_raise opts s mid g txID tm _ hpay htm (hg2 g) hlt,
        setPayloadGoF_raise opts s mid g' txID tm _ hpay htm (hg2 g') hlt]
    · rw [setPayloadGoF_noRaise opts s mid g txID tm _ hpay htm (hg2 g) hlt,
        setPayloadGoF_noRaise opts s mid g' txID tm _ hpay htm (hg2 g') hlt]
  · intro hge
    exact setPayloadGoF_noRaise opts s mid g txID tm _ hpay htm (hg2 g) hge
  · intro hlt
    have hst : (setPayloadGoF opts s mid g).1
        = setOutputsGoF (setTxMeta s txID { tm with gradeOfFinality := opts.BranchTransFunc txID (s.tangle.branchWeight txID) }) (outsOf s txID) (opts.BranchTransFunc txID (s.tangle.branchWeight txID)) := by
      rw [setPayloadGoF_raise opts s mid g txID tm _ hpay htm (hg2 g) hlt]
    rw [hst, setOutputsGoF_txMeta, setTxMeta_txMeta]
    simp

theorem C4_witness :
    (sConfl.tangle.payload 1 = some 2 ∧ sConfl.tangle.conflicting 2 = true)
      ∧ setPayloadGoF defaultOpts sConfl 1 GoF.Low = setPayloadGoF defaultOpts sConfl 1 GoF.High
      ∧ (setPayloadGoF defaultOpts sConfl 1 GoF.Low).1.stores.transactionMetadata 2
        = some { gradeOfFinality := GoF.High, branchID := 2 } := by
  have hw : sConfl.tangle.branchWeight 2 = 3/5 := rfl
  have hBT : defaultOpts.BranchTransFunc 2 (sConfl.tangle.branchWeight 2) = GoF.High := by
    rw [hw]
    norm_num [defaultOpts, DefaultBranchGoFTranslation]
  have h := C4_conflicting_payload defaultOpts sConfl 1 GoF.Low GoF.High 2
    { gradeOfFinality := GoF.None, branchID := 2 } rfl rfl rfl
  refine ⟨⟨rfl, rfl⟩, h.1, ?_⟩
  have h3 := h.2.2 (by rw [hBT]; decide)
  rw [hBT] at h3
  exact h3

/-- C2: across any sequence of `HandleMarker` and `HandleBranch` calls on a well-formed
state (distinct transactions own disjoint output sets, which holds by construction of
output IDs, and every output's level is bounded by its creating transaction's level,
spec invariant I4), no stored grade of finality of any message, transaction or output ever
decreases, and the well-formedness is preserved, so the bound holds at every prefix of the
sequence.  Every write the gadget performs is a raise: message and transaction writes go
through the compare-and-raise `SetGradeOfFinality`, and the unconditional output overwrites
(branch-side `adjustOutputGoF` and payload-side output updates) always store the freshly
raised transaction level, which I4 bounds from below by the previous output level. -/
theorem C2_gof_monotone (opts : Options) (calls : List Call) (s : GState)
    (hd : OutputsDisjoint s) (hb : OutputsBelowTx s) :
    StoresMono s.stores (runCalls opts calls s).stores
      ∧ OutputsDisjoint (runCalls opts calls s) ∧ OutputsBelowTx (runCalls opts calls s) := by
  have h := runCalls_mono_inv opts calls s ⟨hd, hb⟩
  exact ⟨h.1, h.2.1, h.2.2⟩

theorem C2_witness :
    (OutputsDisjoint sEmpty ∧ OutputsBelowTx sEmpty)
      ∧ StoresMono sEmpty.stores
        (runCalls defaultOpts [Call.branch 5 (3/5) 4, Call.marker 0 (3/5) 4] sEmpty).stores := by
  have hd : OutputsDisjoint sEmpty := by
    intro t1 t2 o hne h1 h2
    simp [outsOf, sEmpty, tangle0] at h1
  have hb : OutputsBelowTx sEmpty := by
    intro t tm htm o ho om hom
    simp [sEmpty, stores0] at htm
  exact ⟨⟨hd, hb⟩,
    (C2_gof_monotone defaultOpts [Call.branch 5 (3/5) 4, Call.marker 0 (3/5) 4]
      sEmpty hd hb).1⟩

theorem forwardPropagate_eventOK (opts : Options) (s : GState) (t branchID : Nat)
    (g : GoF) (w : Walker) :
    ∀ e ∈ (forwardPropagateBranchGoFToTxs opts s t branchID g w).2.1,
      EventOK s (forwardPropagateBranchGoFToTxs opts s t branchID g w).1 e := by
  intro e he
  obtain ⟨t', rfl, hr⟩ := forwardPropagate_events opts s t branchID g w e he
  exact hr

theorem forwardPropagate_events_txShape (opts : Options) (branchID : Nat) (g : GoF) :
    ∀ (s : GState) (t : Nat) (w : Walker),
      ∀ e ∈ (forwardPropagateBranchGoFToTxs opts s t branchID g w).2.1,
        ∃ t', e = Event.transactionConfirmed t' := by
  intro s t w e he
  obtain ⟨t', ht', -⟩ := forwardPropagate_events opts s t branchID g w e he
  exact ⟨t', ht'⟩

/-- C3 counterexample: `BranchConfirmed` fires on every `HandleBranch` call whose
translated candidate reaches `BranchGoFReachedLevel`, regardless of any raise.  With branch
5's defining transaction already stored at High and no attachments (so nothing can be
raised by the walk), a call with weight 3/5 leaves the state bit-for-bit unchanged yet
emits `BranchConfirmed 5`, and a second identical call — which again raises nothing —
emits the event again.  This refutes "once reached, a later call that does not raise it
further triggers no additional event for that entity". -/
theorem C3_counterexample :
    HandleBranch defaultOpts sHighTx 5 (3/5) 10 = (sHighTx, [Event.branchConfirmed 5], none)
      ∧ HandleBranch defaultOpts (HandleBranch defaultOpts sHighTx 5 (3/5) 10).1 5 (3/5) 10
        = (sHighTx, [Event.branchConfirmed 5], none) := by
  have hg : defaultOpts.BranchTransFunc 5 (3/5) = GoF.High := by
    norm_num [defaultOpts, DefaultBranchGoFTranslation]
  have hstep : forwardPropagateBranchGoFToTxs defaultOpts sHighTx 5 5 GoF.High
      { queue := [], pushed := [5] } = (sHighTx, [], { queue := [], pushed := [5] }) :=
    forwardPropagate_lowAttachment defaultOpts sHighTx 5 5 GoF.High
      { queue := [], pushed := [5] } { gradeOfFinality := GoF.High, branchID := 5 }
      rfl (by decide)
  have hpush5 : Walker.push { queue := [], pushed := [] } 5
      = { queue := [5], pushed := [5] } := by
    simp [Walker.push]
  have hloop : ∀ fuel : Nat,
      walkLoop (fun s' t w => forwardPropagateBranchGoFToTxs defaultOpts s' t 5 GoF.High w)
        fuel sHighTx { queue := [5], pushed := [5] } = (sHighTx, []) := by
    intro fuel
    cases fuel with
    | zero => rfl
    | succ n =>
      simp only [walkLoop]
      rw [hstep]
      rw [walkLoop_nil _ _ _ _ rfl]
      rfl
  have h1 : HandleBranch defaultOpts sHighTx 5 (3/5) 10
      = (sHighTx, [Event.branchConfirmed 5], none) := by
    rw [HandleBranch_eq, hg, hpush5, hloop]
    simp
    decide
  refine ⟨h1, ?_⟩
  rw [h1]
  exact h1

/-- C3 amended: `MessageConfirmed` and `TransactionConfirmed` fire only for an entity whose
stored grade of finality the call strictly raised (so at most once per upward crossing, and
never on a call that raises nothing); `BranchConfirmed`, by contrast, fires exactly once
per `HandleBranch` call whenever the translated candidate reaches `BranchGoFReachedLevel`,
independent of whether any grade of finality changed. -/
theorem C3_events_require_raise (opts : Options) (s : GState) (marker branchID : Nat)
    (aw : ℚ) (fuel : Nat) (hd : OutputsDisjoint s) (hb : OutputsBelowTx s) :
    (∀ e ∈ (HandleMarker opts s marker aw fuel).2.1,
        EventOK s (HandleMarker opts s marker aw fuel).1 e)
    ∧ (∀ e ∈ (HandleBranch opts s branchID aw fuel).2.1,
        e = Event.branchConfirmed branchID
          ∨ EventOK s (HandleBranch opts s branchID aw fuel).1 e)
    ∧ (∀ b, Event.branchConfirmed b ∈ (HandleBranch opts s branchID aw fuel).2.1
        ↔ b = branchID ∧ opts.BranchGoFReachedLevel ≤ opts.BranchTransFunc branchID aw) := by
  have hinv : GadgetInv s := ⟨hd, hb⟩
  refine ⟨?_, ?_, ?_⟩
  · by_cases hg : opts.MessageTransFunc aw = GoF.None
    · simp only [HandleMarker_gofNone opts s marker aw fuel hg]
      intro e he
      simp at he
    · cases hmm : s.stores.messageMetadata (s.tangle.markerMessage marker) with
      | none =>
        simp only [HandleMarker_noMeta opts s marker aw fuel hg hmm]
        intro e he
        simp at he
      | some mm =>
        by_cases hlt : mm.gradeOfFinality < opts.MessageTransFunc aw
        · simp only [HandleMarker_walk opts s marker aw fuel mm hg hmm hlt]
          exact walkLoop_events _
            (fun s' t w h => propagateGoF_mono_inv opts (opts.MessageTransFunc aw) s' t w h)
            (fun s' t w _ e he => propagateGoF_events opts (opts.MessageTransFunc aw) s' t w e he)
            fuel s _ hinv
        · simp only [HandleMarker_noIncrease opts s marker aw fuel mm hg hmm hlt]
          intro e he
          simp at he
  · simp only [HandleBranch_eq]
    intro e he
    by_cases hc : opts.BranchGoFReachedLevel ≤ opts.BranchTransFunc branchID aw
    · rw [if_pos hc] at he
      rw [List.mem_append] at he
      rcases he with he | he
      · right
        exact walkLoop_events _
          (fun s' t w h => forwardPropagate_mono_inv opts s' t branchID
            (opts.BranchTransFunc branchID aw) w h)
          (fun s' t w _ e' he' => forwardPropagate_eventOK opts s' t branchID
            (opts.BranchTransFunc branchID aw) w e' he')
          fuel s _ hinv e he
      · left
        simpa using he
    · rw [if_neg hc] at he
      right
      exact walkLoop_events _
        (fun s' t w h => forwardPropagate_mono_inv opts s' t branchID
          (opts.BranchTransFunc branchID aw) w h)
        (fun s' t w _ e' he' => forwardPropagate_eventOK opts s' t branchID
          (opts.BranchTransFunc branchID aw) w e' he')
        fuel s _ hinv e he
  · intro b
    simp only [HandleBranch_eq]
    by_cases hc : opts.BranchGoFReachedLevel ≤ opts.BranchTransFunc branchID aw
    · rw [if_pos hc]
      constructor
      · intro hmem
        rw [List.mem_append] at hmem
        rcases hmem with hmem | hmem
        · exfalso
          obtain ⟨t', ht'⟩ := walkLoop_events_shape _
            (fun e => ∃ t', e = Event.transactionConfirmed t')
            (forwardPropagate_events_txShape opts branchID (opts.BranchTransFunc branchID aw))
            fuel s _ _ hmem
          exact Event.noConfusion ht'
        · simp only [List.mem_singleton, Event.branchConfirmed.injEq] at hmem
          exact ⟨hmem, hc⟩
      · rintro ⟨rfl, -⟩
        rw [List.mem_append]
        right
        simp
    · rw [if_neg hc]
      constructor
      · intro hmem
        exfalso
        obtain ⟨t', ht'⟩ := walkLoop_events_shape _
          (fun e => ∃ t', e = Event.transactionConfirmed t')
          (forwardPropagate_events_txShape opts branchID (opts.BranchTransFunc branchID aw))
          fuel s _ _ hmem
        exact Event.noConfusion ht'
      · rintro ⟨-, hcc⟩
        exact absurd hcc hc

theorem C3_witness :
    (OutputsDisjoint sHighTx ∧ OutputsBelowTx sHighTx)
      ∧ (∀ b, Event.branchConfirmed b ∈ (HandleBranch defaultOpts sHighTx 5 (3/5) 10).2.1
          ↔ b = 5 ∧ defaultOpts.BranchGoFReachedLevel
              ≤ defaultOpts.BranchTransFunc 5 (3/5)) := by
  have hd : OutputsDisjoint sHighTx := by
    intro t1 t2 o hne h1 h2
    simp [outsOf, sHighTx, tangle0] at h1
  have hb : OutputsBelowTx sHighTx := by
    intro t tm htm o ho om hom
    simp [outsOf, sHighTx, tangle0] at ho
  exact ⟨⟨hd, hb⟩, (C3_events_require_raise defaultOpts sHighTx 0 5 (3/5) 10 hd hb).2.2⟩

/-- C9: `HandleMarker` is idempotent — after any call, repeating the identical call leaves
the final metadata state unchanged, emits zero events and performs zero metadata writes
(the returned state is exactly the input state) with nil error — and, more generally, any
`HandleMarker` call whose translated candidate grade of finality is not strictly greater
than the resolved target message's current grade of finality changes nothing and emits
nothing. -/
theorem C9_handleMarker_idempotent (opts : Options) (s : GState) (marker : Nat) (aw : ℚ)
    (fuel : Nat) :
    HandleMarker opts (HandleMarker opts s marker aw fuel).1 marker aw fuel
        = ((HandleMarker opts s marker aw fuel).1, [], none)
    ∧ (∀ mm, s.stores.messageMetadata (s.tangle.markerMessage marker) = some mm →
        ¬ mm.gradeOfFinality < opts.MessageTransFunc aw →
        HandleMarker opts s marker aw fuel = (s, [], none)) := by
  constructor
  · by_cases hg : opts.MessageTransFunc aw = GoF.None
    · simp only [HandleMarker_gofNone opts s marker aw fuel hg]
    · cases hmm : s.stores.messageMetadata (s.tangle.markerMessage marker) with
      | none =>
        simp only [HandleMarker_noMeta opts s marker aw fuel hg hmm]
      | some mm =>
        by_cases hlt : mm.gradeOfFinality < opts.MessageTransFunc aw
        · have heq := HandleMarker_walk opts s marker aw fuel mm hg hmm hlt
          have htan : (HandleMarker opts s marker aw fuel).1.tangle = s.tangle := by
            rw [heq]
            exact walkLoop_tangle _
              (fun s' t w => propagateGoF_tangle opts (opts.MessageTransFunc aw) s' t w)
              fuel s _
          rcases markerWalk_result opts (opts.MessageTransFunc aw) fuel s
              (s.tangle.markerMessage marker) mm hmm hlt with hcase | hcase
          · have hs1 : (HandleMarker opts s marker aw fuel).1 = s := by
              rw [heq, hcase]
            rw [hs1, heq, hcase]
          · apply HandleMarker_noIncrease opts (HandleMarker opts s marker aw fuel).1 marker
              aw fuel { mm with gradeOfFinality := opts.MessageTransFunc aw } hg
            · rw [htan, heq]
              exact hcase
            · simp
        · simp only [HandleMarker_noIncrease opts s marker aw fuel mm hg hmm hlt]
  · intro mm hmm hge
    by_cases hg : opts.MessageTransFunc aw = GoF.None
    · exact HandleMarker_gofNone opts s marker aw fuel hg
    · exact HandleMarker_noIncrease opts s marker aw fuel mm hg hmm hge

theorem C9_witness :
    sHighMsg.stores.messageMetadata (sHighMsg.tangle.markerMessage 6)
        = some { gradeOfFinality := GoF.High, isPastMarker := false }
      ∧ HandleMarker defaultOpts sHighMsg 6 (3/5) 4 = (sHighMsg, [], none) := by
  have hg : defaultOpts.MessageTransFunc (3/5) = GoF.High := by
    norm_num [defaultOpts, DefaultMessageGoFTranslation]
  refine ⟨rfl, ?_⟩
  exact (C9_handleMarker_idempotent defaultOpts sHighMsg 6 (3/5) 4).2
    { gradeOfFinality := GoF.High, isPastMarker := false } rfl
    (by rw [hg]; decide)
